import Mathlib

/-!
Shallow embedding of the `IgxColumnComponent` logic of the igniteui-angular
column component (`column.component.ts`) together with proofs about the
multi-row-layout column-size reconciliation, pinning, and width/min-width
setters.  JS numbers appearing in widths are modelled as `ℚ` (the algorithms
only parse integers and divide them), JS `undefined`/`null`/`NaN` values are
modelled with `Option`, and JS object references inside the `columnSizes`
array are modelled as ids into an explicit object store so that in-place
mutation and reference aliasing behave exactly as in the source.
-/

namespace IgxColumn

/-- JS truthiness of an optional integer component field: `undefined` (`none`)
and `0` are falsy, every other number is truthy. -/
def truthyI : Option Int → Bool
  | none => false
  | some n => n != 0

/-- JS truthiness of a column-size `width` value: `none` models `null`/`NaN`
and `some 0` models `0`, all of which are falsy. -/
def wTruthy : Option ℚ → Bool
  | none => false
  | some q => q != 0

/-- Positional lookup in a list, `none` past the end (JS `l[k]` for `k ≥ 0`). -/
def lget {α : Type} : List α → Nat → Option α
  | [], _ => none
  | x :: _, 0 => some x
  | _ :: xs, k + 1 => lget xs k

/-- Positional update of a list; indices past the end leave it unchanged. -/
def lset {α : Type} : List α → Nat → α → List α
  | [], _, _ => []
  | _ :: xs, 0, v => v :: xs
  | x :: xs, k + 1, v => x :: lset xs k v

/-- A child column as read by `getInitialChildColumnSizes`.  `calcWidthInt`
models `parseInt(col.calcWidth, 10)` (`none` = `NaN`); `colStart`, `colEnd`,
`rowStart`, `rowEnd` model the `number` inputs (`none` = `undefined`);
`width`, `hidden`, `pinned` and `parent` are component fields that the sizing
algorithm never reads — they are carried so that the frame and
noninterference facts about the algorithm are meaningful. -/
structure Column where
  colStart : Option Int
  colEnd : Option Int
  rowStart : Option Int
  rowEnd : Option Int
  widthSetByUser : Bool
  calcWidthInt : Option Int
  width : Option String
  hidden : Bool
  pinned : Bool
  parent : Option Nat
deriving DecidableEq, Repr

/-- `get gridColumnSpan(): number { return this.colEnd && this.colStart ?
this.colEnd - this.colStart : 1; }` -/
def gridColumnSpan (c : Column) : Int :=
  if truthyI c.colEnd && truthyI c.colStart then c.colEnd.getD 0 - c.colStart.getD 0 else 1

/-- `get gridRowSpan(): number { return this.rowEnd && this.rowStart ?
this.rowEnd - this.rowStart : 1; }` -/
def gridRowSpan (c : Column) : Int :=
  if truthyI c.rowEnd && truthyI c.rowStart then c.rowEnd.getD 0 - c.rowStart.getD 0 else 1

/-- One entry of the `MRLColumnSizeInfo` array built by
`getInitialChildColumnSizes`.  `ref` is the position of the referenced column
in the `children` list (object identity of the column). -/
structure MRLEntry where
  ref : Nat
  width : Option ℚ
  colSpan : Int
  colEnd : Int
  widthSetByUser : Bool
deriving DecidableEq, Repr

/-- The JS `columnSizes` array together with its object heap: `slots` are the
array elements (each holding an object id, `none` = hole), `props` are the
properties created by writes at negative indices (JS arrays accept them as
plain properties that do not contribute to `length`), and `store` is the
object heap.  Ids model JS object references, so writing the same id to two
slots aliases them, as the source does at `columnSizes[i] =
columnSizes[col.colStart - 1]`. -/
structure SizeArr where
  slots : List (Option Nat)
  props : List (Int × Nat)
  store : List MRLEntry
deriving DecidableEq, Repr

def SizeArr.empty : SizeArr := ⟨[], [], []⟩

/-- Read of `columnSizes[k]` for a nonnegative index. -/
def readN (st : SizeArr) (k : Nat) : Option Nat := (lget st.slots k).getD none

/-- Extend the array part so that index `k` exists (JS assignment beyond
`length` fills the gap with holes and bumps `length`). -/
def padSlots (l : List (Option Nat)) (k : Nat) : List (Option Nat) :=
  l ++ List.replicate (k + 1 - l.length) none

/-- Write of `columnSizes[k] = obj` for a nonnegative index. -/
def writeN (st : SizeArr) (k : Nat) (id : Nat) : SizeArr :=
  { st with slots := lset (padSlots st.slots k) k (some id) }

def lookupProp : List (Int × Nat) → Int → Option Nat
  | [], _ => none
  | (i, v) :: rest, j => if i = j then some v else lookupProp rest j

/-- Read of `columnSizes[i]` for an arbitrary integer index. -/
def readI (st : SizeArr) (i : Int) : Option Nat :=
  if 0 ≤ i then readN st i.toNat else lookupProp st.props i

/-- Write of `columnSizes[i] = obj` for an arbitrary integer index. -/
def writeI (st : SizeArr) (i : Int) (id : Nat) : SizeArr :=
  if 0 ≤ i then writeN st i.toNat id else { st with props := (i, id) :: st.props }

/-- Evaluation of a JS object literal: the new object is appended to the heap
and its id returned. -/
def alloc (st : SizeArr) (e : MRLEntry) : SizeArr × Nat :=
  ({ st with store := st.store ++ [e] }, st.store.length)

/-- Dereferencing read `columnSizes[i]` (integer index). -/
def getObjI (st : SizeArr) (i : Int) : Option MRLEntry :=
  (readI st i).bind fun id => lget st.store id

/-- Dereferencing read `columnSizes[k]` (nonnegative index). -/
def getObjN (st : SizeArr) (k : Nat) : Option MRLEntry :=
  (readN st k).bind fun id => lget st.store id

/-- In-place mutation of the object with id `id` (affects every slot aliasing
that object, as JS field assignment does). -/
def mutateObj (st : SizeArr) (id : Nat) (e : MRLEntry) : SizeArr :=
  { st with store := lset st.store id e }

/-- The object literal built at the three creation sites of the `forEach`
pass: `{ ref: col, width: col.widthSetByUser || this.grid.columnWidthSetByUser
? parseInt(col.calcWidth, 10) : null, colSpan: col.gridColumnSpan, colEnd:
col.colStart + col.gridColumnSpan, widthSetByUser: col.widthSetByUser }`.
`g` is `this.grid.columnWidthSetByUser`. -/
def mkEntry (g : Bool) (idx : Nat) (c : Column) : MRLEntry :=
  { ref := idx
    width := if c.widthSetByUser || g then c.calcWidthInt.map (fun n => (n : ℚ)) else none
    colSpan := gridColumnSpan c
    colEnd := c.colStart.getD 0 + gridColumnSpan c
    widthSetByUser := c.widthSetByUser }

/-- The loop `for (let i = col.colStart - 1 + col.gridColumnSpan; i <
columnSizes[col.colStart - 1].colEnd - 1; i++)` filling trailing slots with
the replaced entry.  The source assigns `columnSizes[i] = columnSizes[col.
colStart - 1]` — the same object reference, modelled by writing the same id
`oldId`.  The loop bound re-reads the entry at `colStart - 1`, but the loop
body never overwrites that slot (when `i` reaches it the entry there has
`widthSetByUser` set, which breaks first), so the bound is hoisted. -/
def copyOldLoop (oldId : Nat) (st : SizeArr) (i b : Int) : SizeArr :=
  if hib : i < b then
    match getObjI st i with
    | none => copyOldLoop oldId (writeI st i oldId) (i + 1) b
    | some e =>
      if e.widthSetByUser then st
      else copyOldLoop oldId (writeI st i oldId) (i + 1) b
  else st
termination_by (b - i).toNat
decreasing_by
  all_goals omega

/-- The loop `for (let i = col.colStart - 1 + columnSizes[col.colStart - 1].
colSpan; i < col.colStart - 1 + col.gridColumnSpan; i++)` filling empty slots
with a freshly created entry for the new, wider column.  The JS object
literal inside the loop creates a distinct object per iteration with the same
field values, modelled by allocating `entry` anew on each write. -/
def fillBiggerLoop (entry : MRLEntry) (st : SizeArr) (i b : Int) : SizeArr :=
  if hib : i < b then
    match getObjI st i with
    | none =>
      let an := alloc st entry
      fillBiggerLoop entry (writeI an.1 i an.2) (i + 1) b
    | some e =>
      if e.widthSetByUser then st
      else
        let an := alloc st entry
        fillBiggerLoop entry (writeI an.1 i an.2) (i + 1) b
  else st
termination_by (b - i).toNat
decreasing_by
  all_goals omega

/-- One iteration of the `children.forEach(col => …)` body of
`getInitialChildColumnSizes` (`idx` is the position of `col` in `children`).
The unreachable inner `none` case covers an id that is not in the heap, which
never occurs since slots only ever receive allocated ids. -/
def step (g : Bool) (st : SizeArr) (idx : Nat) (c : Column) : SizeArr :=
  if truthyI c.colStart then
    let cs : Int := c.colStart.getD 0
    let span : Int := gridColumnSpan c
    match readI st (cs - 1) with
    | none =>
      let an := alloc st (mkEntry g idx c)
      writeI an.1 (cs - 1) an.2
    | some oldId =>
      match lget st.store oldId with
      | none => st
      | some old =>
        let newWidthSet := c.widthSetByUser && !old.widthSetByUser
        let newSpanSmaller := decide (span < old.colSpan)
        let bothWidthsSet := c.widthSetByUser && old.widthSetByUser
        let bothWidthsNotSet := !c.widthSetByUser && !old.widthSetByUser
        if newWidthSet || (newSpanSmaller && (bothWidthsSet || bothWidthsNotSet)) then
          let st1 :=
            if bothWidthsSet && newSpanSmaller then
              copyOldLoop oldId st (cs - 1 + span) (old.colEnd - 1)
            else st
          let an := alloc st1 (mkEntry g idx c)
          writeI an.1 (cs - 1) an.2
        else if bothWidthsSet && decide (old.colSpan < span) then
          fillBiggerLoop (mkEntry g idx c) st (cs - 1 + old.colSpan) (cs - 1 + span)
        else st
  else st

/-- The `children.forEach(col => …)` pass.  Each child column is also
threaded through and returned: the loop body reads `col` but contains no
assignment to any of its fields, so each column comes back unchanged, which
records the frame property of the pass. -/
def phase1 (g : Bool) : SizeArr → Nat → List Column → SizeArr × List Column
  | st, _, [] => (st, [])
  | st, idx, c :: rest =>
    let st1 := step g st idx c
    let r := phase1 g st1 (idx + 1) rest
    (r.1, c :: r.2)

/-- The value written by the flatten loop both for the propagated copies and
for the in-place update of the processed entry: `colSpan` becomes `1` and a
user-set width is divided by the (pre-flatten) column span. -/
def flatEntry (base : MRLEntry) : MRLEntry :=
  { ref := base.ref
    width :=
      if base.widthSetByUser then base.width.map (fun q => q / (base.colSpan : ℚ))
      else base.width
    colSpan := 1
    colEnd := base.colEnd
    widthSetByUser := base.widthSetByUser }

/-- The break condition of the inner flatten loop: `columnSizes[i + j] &&
((!columnSizes[i].width && columnSizes[i + j].width) || (!columnSizes[i].width
&& !columnSizes[i + j].width && columnSizes[i + j].colSpan <=
columnSizes[i].colSpan) || (!!columnSizes[i + j].width && columnSizes[i + j].
colSpan <= columnSizes[i].colSpan))`. -/
def flattenStop (st : SizeArr) (i : Nat) (base : MRLEntry) (j : Nat) : Bool :=
  match getObjN st (i + j) with
  | none => false
  | some e =>
    (!(wTruthy base.width) && wTruthy e.width) ||
    (!(wTruthy base.width) && !(wTruthy e.width) && decide (e.colSpan ≤ base.colSpan)) ||
    (wTruthy e.width && decide (e.colSpan ≤ base.colSpan))

/-- The inner flatten loop `for (; j < columnSizes[i].colSpan && i + j + 1 <
columnSizes[i].colEnd; j++)`.  It returns the state and the final value of
`j`.  The conditions re-read `columnSizes[i]` in the source, but the body
only writes slots `i + j` with `j ≥ 1` and never mutates the entry object, so
`base` is constant across the loop and is hoisted. -/
def flattenInner (st : SizeArr) (i : Nat) (base : MRLEntry) (j : Nat) : SizeArr × Nat :=
  if hj : (j : Int) < base.colSpan ∧ ((i : Int) + j + 1 : Int) < base.colEnd then
    if flattenStop st i base j then (st, j)
    else
      let an := alloc st (flatEntry base)
      flattenInner (writeN an.1 (i + j) an.2) i base (j + 1)
  else (st, j)
termination_by (base.colSpan - j).toNat
decreasing_by
  omega

/-! ### Elementary facts about the list helpers and the array model -/

theorem lget_none_of_ge {α : Type} : ∀ (l : List α) (k : Nat), l.length ≤ k → lget l k = none := by
  intro l
  induction l with
  | nil => intro k _; rfl
  | cons x xs ih =>
    intro k hk
    cases k with
    | zero => simp at hk
    | succ k => exact ih k (by simpa using hk)

theorem lget_isSome_of_lt {α : Type} : ∀ (l : List α) (k : Nat), k < l.length → (lget l k).isSome := by
  intro l
  induction l with
  | nil => intro k hk; simp at hk
  | cons x xs ih =>
    intro k hk
    cases k with
    | zero => simp [lget]
    | succ k => exact ih k (by simpa using hk)

theorem mem_of_lget {α : Type} : ∀ (l : List α) (k : Nat) (x : α), lget l k = some x → x ∈ l := by
  intro l
  induction l with
  | nil => intro k x h; simp [lget] at h
  | cons y ys ih =>
    intro k x h
    cases k with
    | zero =>
      simp [lget] at h
      simp [h]
    | succ k =>
      simp [lget] at h
      exact List.mem_cons_of_mem _ (ih k x h)

theorem length_lset {α : Type} : ∀ (l : List α) (k : Nat) (v : α), (lset l k v).length = l.length := by
  intro l
  induction l with
  | nil => intro k v; rfl
  | cons x xs ih =>
    intro k v
    cases k with
    | zero => rfl
    | succ k => simp [lset, ih]

theorem lget_lset_self {α : Type} : ∀ (l : List α) (k : Nat) (v : α), k < l.length → lget (lset l k v) k = some v := by
  intro l
  induction l with
  | nil => intro k v hk; simp at hk
  | cons x xs ih =>
    intro k v hk
    cases k with
    | zero => rfl
    | succ k => exact ih k v (by simpa using hk)

theorem lget_lset_ne {α : Type} : ∀ (l : List α) (k k2 : Nat) (v : α), k ≠ k2 → lget (lset l k v) k2 = lget l k2 := by
  intro l
  induction l with
  | nil => intro k k2 v _; rfl
  | cons x xs ih =>
    intro k k2 v hne
    cases k with
    | zero =>
      cases k2 with
      | zero => exact absurd rfl hne
      | succ k2 => rfl
    | succ k =>
      cases k2 with
      | zero => rfl
      | succ k2 => exact ih k k2 v (by omega)

theorem mem_lset {α : Type} : ∀ (l : List α) (k : Nat) (v x : α), x ∈ lset l k v → x = v ∨ x ∈ l := by
  intro l
  induction l with
  | nil => intro k v x h; simp [lset] at h
  | cons y ys ih =>
    intro k v x h
    cases k with
    | zero =>
      rcases List.mem_cons.mp h with h1 | h1
      · exact Or.inl h1
      · exact Or.inr (List.mem_cons_of_mem _ h1)
    | succ k =>
      rcases List.mem_cons.mp h with h1 | h1
      · exact Or.inr (by simp [h1])
      · rcases ih k v x h1 with h2 | h2
        · exact Or.inl h2
        · exact Or.inr (List.mem_cons_of_mem _ h2)

theorem lget_append_left {α : Type} : ∀ (l l2 : List α) (k : Nat), k < l.length → lget (l ++ l2) k = lget l k := by
  intro l
  induction l with
  | nil => intro l2 k hk; simp at hk
  | cons x xs ih =>
    intro l2 k hk
    cases k with
    | zero => rfl
    | succ k => exact ih l2 k (by simpa using hk)

theorem lget_append_length {α : Type} : ∀ (l : List α) (x : α) (l2 : List α), lget (l ++ x :: l2) l.length = some x := by
  intro l
  induction l with
  | nil => intro x l2; rfl
  | cons y ys ih => intro x l2; exact ih x l2

theorem lget_append_right {α : Type} : ∀ (l l2 : List α) (m : Nat), lget (l ++ l2) (l.length + m) = lget l2 m := by
  intro l
  induction l with
  | nil => intro l2 m; simp
  | cons x xs ih =>
    intro l2 m
    have h : (x :: xs).length + m = (xs.length + m) + 1 := by simp; omega
    rw [h]
    simpa using ih l2 m

theorem lget_replicate {α : Type} (x : α) : ∀ (n k : Nat), k < n → lget (List.replicate n x) k = some x := by
  intro n
  induction n with
  | zero => intro k hk; simp at hk
  | succ n ih =>
    intro k hk
    cases k with
    | zero => rfl
    | succ k =>
      simp [List.replicate_succ, lget]
      exact ih k (by omega)

theorem length_padSlots (l : List (Option Nat)) (k : Nat) :
    (padSlots l k).length = max l.length (k + 1) := by
  simp [padSlots]
  omega

theorem lget_padSlots_lt (l : List (Option Nat)) (k k2 : Nat) (hk : k2 < l.length) :
    lget (padSlots l k) k2 = lget l k2 :=
  lget_append_left l _ k2 hk

/-- Reading any slot other than the written one is unchanged. -/
theorem readN_writeN_ne (st : SizeArr) (k id : Nat) (k2 : Nat) (hne : k2 ≠ k) :
    readN (writeN st k id) k2 = readN st k2 := by
  unfold readN writeN
  simp only
  rw [lget_lset_ne _ k k2 _ (fun h => hne h.symm)]
  by_cases hk2 : k2 < st.slots.length
  · rw [lget_padSlots_lt st.slots k k2 hk2]
  · rw [lget_none_of_ge st.slots k2 (by omega)]
    by_cases hpad : k2 < (padSlots st.slots k).length
    · have hrep : lget (padSlots st.slots k) k2 = some none := by
        unfold padSlots
        have hlen : k2 - st.slots.length < k + 1 - st.slots.length := by
          rw [length_padSlots] at hpad
          omega
        have h2 : k2 = st.slots.length + (k2 - st.slots.length) := by omega
        rw [h2, lget_append_right, lget_replicate _ _ _ hlen]
      rw [hrep]
      rfl
    · rw [lget_none_of_ge _ k2 (by omega)]

/-- Reading back the written slot. -/
theorem readN_writeN_self (st : SizeArr) (k id : Nat) :
    readN (writeN st k id) k = some id := by
  unfold readN writeN
  simp only
  rw [lget_lset_self]
  · rfl
  · rw [length_padSlots]; omega

theorem writeN_store (st : SizeArr) (k id : Nat) : (writeN st k id).store = st.store := rfl

theorem writeN_props (st : SizeArr) (k id : Nat) : (writeN st k id).props = st.props := rfl

theorem writeN_slots_length (st : SizeArr) (k id : Nat) :
    (writeN st k id).slots.length = max st.slots.length (k + 1) := by
  unfold writeN
  simp only
  rw [length_lset, length_padSlots]

theorem alloc_store (st : SizeArr) (e : MRLEntry) : (alloc st e).1.store = st.store ++ [e] := rfl

theorem alloc_id (st : SizeArr) (e : MRLEntry) : (alloc st e).2 = st.store.length := rfl

/-- Full characterisation of one run of the inner flatten loop: the final `j`
only grows, the heap is only extended and every appended object is the
flattened copy of `base`, slots below `i + j` are untouched, the slots from
`i + j` up to the final `j` hold fresh flattened copies of `base`, negative
properties are untouched, and the array length grows at most up to the last
written slot. -/
theorem flattenInner_spec : ∀ (n : Nat) (st : SizeArr) (i : Nat) (base : MRLEntry) (j : Nat),
    (base.colSpan - (j : Int)).toNat ≤ n →
    j ≤ (flattenInner st i base j).2 ∧
    (∃ tail, (flattenInner st i base j).1.store = st.store ++ tail ∧ ∀ e ∈ tail, e = flatEntry base) ∧
    (∀ k, k < i + j → readN (flattenInner st i base j).1 k = readN st k) ∧
    (∀ k, i + j ≤ k → k < i + (flattenInner st i base j).2 →
      ∃ nid, readN (flattenInner st i base j).1 k = some nid ∧ st.store.length ≤ nid ∧
        lget (flattenInner st i base j).1.store nid = some (flatEntry base)) ∧
    (flattenInner st i base j).1.props = st.props ∧
    (flattenInner st i base j).1.slots.length ≤ max st.slots.length (i + (flattenInner st i base j).2) := by
  intro n
  induction n with
  | zero =>
    intro st i base j hn
    rw [flattenInner]
    have hc : ¬((j : Int) < base.colSpan ∧ ((i : Int) + j + 1 : Int) < base.colEnd) := by
      intro h
      have := h.1
      omega
    rw [dif_neg hc]
    exact ⟨le_refl j, ⟨[], by simp, by simp⟩, fun k _ => rfl,
      fun k hk1 hk2 => absurd (show k < i + j from hk2) (by omega), rfl, le_max_left _ _⟩
  | succ n ih =>
    intro st i base j hn
    rw [flattenInner]
    by_cases hc : ((j : Int) < base.colSpan ∧ ((i : Int) + j + 1 : Int) < base.colEnd)
    · rw [dif_pos hc]
      by_cases hs : flattenStop st i base j
      · rw [if_pos hs]
        exact ⟨le_refl j, ⟨[], by simp, by simp⟩, fun k _ => rfl,
          fun k hk1 hk2 => absurd (show k < i + j from hk2) (by omega), rfl, le_max_left _ _⟩
      · rw [if_neg hs]
        simp only
        have hc1 := hc.1
        have hmeas : (base.colSpan - ((j : Nat) + 1 : Int)).toNat ≤ n := by
          omega
        have hih := ih (writeN (alloc st (flatEntry base)).1 (i + j) (alloc st (flatEntry base)).2) i base (j + 1) (by push_cast; omega)
        set st1 := writeN (alloc st (flatEntry base)).1 (i + j) (alloc st (flatEntry base)).2 with hst1
        set r := flattenInner st1 i base (j + 1) with hr
        obtain ⟨h1, ⟨tail, htail, htailall⟩, h3, h4, h5, h6⟩ := hih
        have hst1store : st1.store = st.store ++ [flatEntry base] := rfl
        have hst1props : st1.props = st.props := rfl
        have hst1len : st1.slots.length = max st.slots.length (i + j + 1) := by
          rw [hst1, writeN_slots_length]
          rfl
        refine ⟨by omega, ?_, ?_, ?_, ?_, ?_⟩
        · refine ⟨flatEntry base :: tail, ?_, ?_⟩
          · rw [htail, hst1store, List.append_assoc]
            rfl
          · intro e he
            rcases List.mem_cons.mp he with h | h
            · exact h
            · exact htailall e h
        · intro k hk
          rw [h3 k (by omega), hst1, readN_writeN_ne _ _ _ _ (by omega)]
          rfl
        · intro k hk1 hk2
          by_cases hkeq : k = i + j
          · subst hkeq
            refine ⟨st.store.length, ?_, le_refl _, ?_⟩
            · rw [h3 (i + j) (by omega), hst1]
              have := readN_writeN_self (alloc st (flatEntry base)).1 (i + j) (alloc st (flatEntry base)).2
              rw [this]
              rfl
            · rw [htail, hst1store, List.append_assoc]
              exact lget_append_length st.store (flatEntry base) tail
          · obtain ⟨nid, hrn, hge, hl⟩ := h4 k (by omega) (by omega)
            refine ⟨nid, hrn, ?_, hl⟩
            have : st1.store.length = st.store.length + 1 := by
              rw [hst1store]
              simp
            omega
        · rw [h5, hst1props]
        · rw [hst1len] at h6
          omega
    · rw [dif_neg hc]
      exact ⟨le_refl j, ⟨[], by simp, by simp⟩, fun k _ => rfl,
        fun k hk1 hk2 => absurd (show k < i + j from hk2) (by omega), rfl, le_max_left _ _⟩

/-- `flattenInner_spec` at its own measure. -/
theorem flattenInner_main (st : SizeArr) (i : Nat) (base : MRLEntry) (j : Nat) :
    j ≤ (flattenInner st i base j).2 ∧
    (∃ tail, (flattenInner st i base j).1.store = st.store ++ tail ∧ ∀ e ∈ tail, e = flatEntry base) ∧
    (∀ k, k < i + j → readN (flattenInner st i base j).1 k = readN st k) ∧
    (∀ k, i + j ≤ k → k < i + (flattenInner st i base j).2 →
      ∃ nid, readN (flattenInner st i base j).1 k = some nid ∧ st.store.length ≤ nid ∧
        lget (flattenInner st i base j).1.store nid = some (flatEntry base)) ∧
    (flattenInner st i base j).1.props = st.props ∧
    (flattenInner st i base j).1.slots.length ≤ max st.slots.length (i + (flattenInner st i base j).2) :=
  flattenInner_spec (base.colSpan - (j : Int)).toNat st i base j (le_refl _)

/-- The outer flatten loop `for (let i = 0; i < columnSizes.length; i++)`
with its body `if (columnSizes[i] && columnSizes[i].colSpan > 1) { … }`: the
inner loop propagates flattened copies, then the processed entry is updated
in place (`columnSizes[i].width = …; columnSizes[i].colSpan = 1;`, affecting
every slot that aliases the object) and `i += j - 1` skips the slots the
inner loop just wrote.  The inner `none` case (an id missing from the heap)
is unreachable since slots only receive allocated ids. -/
def flattenFrom (st : SizeArr) (i : Nat) : SizeArr :=
  if hi : i < st.slots.length then
    match readN st i with
    | some id =>
      match lget st.store id with
      | some e =>
        if 1 < e.colSpan then
          let p := flattenInner st i e 1
          flattenFrom (mutateObj p.1 id (flatEntry e)) (i + p.2)
        else flattenFrom st (i + 1)
      | none => flattenFrom st (i + 1)
    | none => flattenFrom st (i + 1)
  else st
termination_by st.slots.length - i
decreasing_by
  · have h := flattenInner_main st i e 1
    have hm : (mutateObj (flattenInner st i e 1).1 id (flatEntry e)).slots.length
        = (flattenInner st i e 1).1.slots.length := rfl
    omega
  all_goals omega

/-- The returned `columnSizes` array with every slot dereferenced to the
object it holds. -/
def resolve (st : SizeArr) : List (Option MRLEntry) :=
  st.slots.map fun o => o.bind fun id => lget st.store id

/-- The receiver state read by `getInitialChildColumnSizes`:
`this.grid.columnWidthSetByUser` is the only member of the receiving column
(and its grid) that the algorithm consults. -/
structure Receiver where
  columnWidthSetByUser : Bool
deriving DecidableEq, Repr

/-- `getInitialChildColumnSizes(children)` of `IgxColumnComponent`: the
`forEach` reconciliation pass followed by the flatten loop.  Besides the
resulting size array it returns the receiver and the child columns threaded
through the computation; the source reads but never assigns any field of the
receiver or of a child column, so both come back unchanged. -/
def getInitialChildColumnSizesFrame (r : Receiver) (children : List Column) :
    List (Option MRLEntry) × Receiver × List Column :=
  let p := phase1 r.columnWidthSetByUser SizeArr.empty 0 children
  (resolve (flattenFrom p.1 0), r, p.2)

/-- The size array computed by `getInitialChildColumnSizes(children)`;
`g` is `this.grid.columnWidthSetByUser`. -/
def getInitialChildColumnSizes (g : Bool) (children : List Column) : List (Option MRLEntry) :=
  (getInitialChildColumnSizesFrame ⟨g⟩ children).1

/-- Decimal rendering of the rational width used when a width is concatenated
with a string.  The widths the algorithm produces are parsed integers or such
integers divided by a span; JS prints non-integers in decimal notation, which
is rendered here as a fraction — no claim below observes those digits. -/
def qToStr (q : ℚ) : String :=
  if q.den = 1 then toString q.num else toString q.num ++ "/" ++ toString q.den

/-- Rendering of `parseInt(this.grid.getPossibleColumnWidth(), 10)` when
concatenated with a string (`none`, i.e. `NaN`, prints as `NaN`). -/
def intOptToStr : Option Int → String
  | none => "NaN"
  | some n => toString n

/-- `getFilledChildColumnSizes(children)`: every reconciled entry with a
truthy width is rendered as `width + 'px'`, every other position is filled
with the grid's possible column width.  `possible` models
`parseInt(this.grid.getPossibleColumnWidth(), 10)`. -/
def getFilledChildColumnSizes (g : Bool) (possible : Option Int) (children : List Column) :
    List String :=
  (getInitialChildColumnSizes g children).map fun o =>
    match o with
    | some e => if wTruthy e.width then qToStr (e.width.getD 0) ++ "px" else intOptToStr possible ++ "px"
    | none => intOptToStr possible ++ "px"

/-! ### Pinning: the column/grid pin state -/

/-- The pin-relevant state of one column: `_pinned`, `_unpinnedIndex`
(`none` = `undefined`) and the parent column (an id into the grid's list of
columns, `none` for a top-level column). -/
structure PCol where
  pinned : Bool
  unpinnedIndex : Option Int
  parent : Option Nat
deriving DecidableEq, Repr

/-- Modelled from the spec: the grid state touched by `pin`/`unpin` — the
grid component itself is not part of this repository slice, so its members
are modelled after the spec ("Pinning: moving a column into a fixed
(always-visible) region of the grid"): `pinnedCols` is `_pinnedColumns`
(also what the `pinnedColumns` collection getter exposes), `unpinnedCols` is
`_unpinnedColumns`, `columns` is `grid.columns` (ids in grid order), and
`initFlag` is `_init` as read by the column's `pinnable` getter. -/
structure PGrid where
  initFlag : Bool
  pinnedCols : List Nat
  unpinnedCols : List Nat
  columns : List Nat
deriving DecidableEq, Repr

/-- A grid together with its columns; column ids are positions in `cols`. -/
structure PState where
  cols : List PCol
  grid : PGrid
deriving DecidableEq, Repr

def defaultPCol : PCol := ⟨false, none, none⟩

def colAt (st : PState) (id : Nat) : PCol := (lget st.cols id).getD defaultPCol

def updateCol (st : PState) (id : Nat) (f : PCol → PCol) : PState :=
  { st with cols := lset st.cols id (f (colAt st id)) }

/-- `get pinnable() { return (this.grid as any)._init || !this.pinned; }` -/
def pinnable (st : PState) (id : Nat) : Bool :=
  st.grid.initFlag || !(colAt st id).pinned

/-- JS `Array.prototype.indexOf`: the index of the first occurrence, `-1` if
absent. -/
def jsIndexOf {α : Type} [DecidableEq α] : List α → α → Int
  | [], _ => -1
  | y :: ys, x =>
    if y = x then 0
    else
      let r := jsIndexOf ys x
      if r = -1 then -1 else r + 1

/-- JS `splice(start, 0, x)`: insertion at `start` clamped into `[0, length]`
(a negative `start` counts from the end). -/
def jsSpliceInsert {α : Type} (l : List α) (start : Int) (x : α) : List α :=
  let s : Nat := if start < 0 then ((l.length : Int) + start).toNat else min start.toNat l.length
  l.take s ++ x :: l.drop s

/-- JS `splice(start, 1)`: removal of one element at `start` clamped into
`[0, length]` (removing at `length` removes nothing). -/
def jsSpliceRemove1 {α : Type} (l : List α) (start : Int) : List α :=
  let s : Nat := if start < 0 then ((l.length : Int) + start).toNat else min start.toNat l.length
  l.take s ++ l.drop (s + 1)

/-- `get topLevelParent()`: follow `parent` while the parent has a parent.
`fuel` bounds the walk; every use below is on parentless columns, which never
walk at all. -/
def topLevelParentAux (st : PState) : Nat → Nat → Nat
  | 0, p => p
  | fuel + 1, p =>
    match (colAt st p).parent with
    | none => p
    | some q => topLevelParentAux st fuel q

def topLevelParent (st : PState) (fuel : Nat) (id : Nat) : Option Nat :=
  ((colAt st id).parent).map (topLevelParentAux st fuel)

/-- Modelled from the spec: `grid._moveColumns` reorders the grid's columns
after an indexed pin/unpin; the spec describes no further behaviour and no
claim below reaches it (it only runs when an index is passed and in range),
so it leaves the modelled pin state unchanged. -/
def moveColumns (st : PState) (_id : Nat) : PState := st

/-- Modelled from the spec: `grid.reinitPinStates` recomputes the grid's
pinned and unpinned column collections from each column's pinned state. -/
def reinitPinStates (st : PState) : PState :=
  { st with grid := { st.grid with
      pinnedCols := st.grid.columns.filter (fun i => (colAt st i).pinned),
      unpinnedCols := st.grid.columns.filter (fun i => !(colAt st i).pinned) } }

/-- The part of `pin(index?)` past the already-pinned check and the parent
delegation.  `endEdit`, the `pinnedChange`/`onColumnPinning` emissions,
`resetCaches`, `notifyChanges` and `filteringService.refreshExpressions` do
not touch the modelled pin state; the `columnGroup` branch is dead because
`get columnGroup()` returns `false` on `IgxColumnComponent`, and the
`columnLayoutChild` branch only calls `populateVisibleIndexes`, whose body is
empty. -/
def pinBody (st : PState) (id : Nat) (index? : Option Int) : Bool × PState :=
  let hasIndex := index?.isSome
  if hasIndex && (decide (index?.getD 0 < 0) || decide ((st.grid.pinnedCols.length : Int) ≤ index?.getD 0)) then
    (false, st)
  else if (colAt st id).parent.isNone && !(pinnable st id) then (false, st)
  else
    let st1 := updateCol st id (fun c => { c with pinned := true })
    let st2 := updateCol st1 id
      (fun c => { c with unpinnedIndex := some (jsIndexOf st1.grid.unpinnedCols id) })
    let index : Int := index?.getD (st2.grid.pinnedCols.length : Int)
    let st3 :=
      if jsIndexOf st2.grid.pinnedCols id = -1 then
        let g1 := { st2.grid with pinnedCols := jsSpliceInsert st2.grid.pinnedCols index id }
        let g2 :=
          if jsIndexOf g1.unpinnedCols id ≠ -1 then
            { g1 with unpinnedCols := jsSpliceRemove1 g1.unpinnedCols (jsIndexOf g1.unpinnedCols id) }
          else g1
        { st2 with grid := g2 }
      else st2
    let st4 := if hasIndex then moveColumns st3 id else st3
    (true, st4)

/-- `pin(index?)` of `IgxColumnComponent`.  `fuel` bounds the
`topLevelParent.pin(index)` delegation chain; a parentless column never
consumes it. -/
def pin : Nat → PState → Nat → Option Int → Bool × PState
  | fuel, st, id, index? =>
    let c := colAt st id
    if c.pinned then (false, st)
    else
      match c.parent with
      | some p =>
        if !(colAt st p).pinned then
          match fuel with
          | 0 => (false, st)
          | fuel2 + 1 => pin fuel2 st ((topLevelParent st fuel2 id).getD id) index?
        else pinBody st id index?
      | none => pinBody st id index?

/-- The part of `unpin(index?)` past the already-unpinned check and the
parent delegation; the non-pin-state effects are as in `pinBody`, and
`reinitPinStates` runs unconditionally at the end. -/
def unpinBody (st : PState) (id : Nat) (index? : Option Int) : Bool × PState :=
  let hasIndex := index?.isSome
  if hasIndex && (decide (index?.getD 0 < 0) || decide ((st.grid.unpinnedCols.length : Int) ≤ index?.getD 0)) then
    (false, st)
  else
    let index : Int :=
      match index? with
      | some i => i
      | none =>
        match (colAt st id).unpinnedIndex with
        | some u => u
        | none => jsIndexOf st.grid.columns id
    let st1 := updateCol st id (fun c => { c with pinned := false })
    let st2 := { st1 with grid := { st1.grid with
        unpinnedCols := jsSpliceInsert st1.grid.unpinnedCols index id } }
    let st3 :=
      if jsIndexOf st2.grid.pinnedCols id ≠ -1 then
        { st2 with grid := { st2.grid with
            pinnedCols := jsSpliceRemove1 st2.grid.pinnedCols (jsIndexOf st2.grid.pinnedCols id) } }
      else st2
    let st4 := if hasIndex then moveColumns st3 id else st3
    let st5 := reinitPinStates st4
    (true, st5)

/-- `unpin(index?)` of `IgxColumnComponent` (`this.index` in the default for
the insertion position is `this.grid.columns.indexOf(this)`). -/
def unpin : Nat → PState → Nat → Option Int → Bool × PState
  | fuel, st, id, index? =>
    let c := colAt st id
    if !c.pinned then (false, st)
    else
      match c.parent with
      | some p =>
        if (colAt st p).pinned then
          match fuel with
          | 0 => (false, st)
          | fuel2 + 1 => unpin fuel2 st ((topLevelParent st fuel2 id).getD id) index?
        else unpinBody st id index?
      | none => unpinBody st id index?

/-- A well-formed grid/columns state: the grid's column list enumerates the
columns in id order and the pinned/unpinned collections partition it
according to each column's pinned state (which is what `initPinning` /
`reinitPinStates` establish). -/
def Consistent (st : PState) : Prop :=
  st.grid.columns = List.range st.cols.length ∧
  st.grid.pinnedCols = (List.range st.cols.length).filter (fun i => (colAt st i).pinned) ∧
  st.grid.unpinnedCols = (List.range st.cols.length).filter (fun i => !(colAt st i).pinned)

instance (st : PState) : Decidable (Consistent st) := by
  unfold Consistent
  infer_instance

/-! ### The `minWidth` setter/getter -/

/-- `DisplayDensity` of the owning grid. -/
inductive DisplayDensity
  | comfortable
  | cosy
  | compact
deriving DecidableEq, Repr

/-- The state read and written by the `minWidth` accessors:
`storedMinWidth` is `_defaultMinWidth` (initialised to the empty string), and
the grid reference with its display density feeds `get defaultMinWidth()`. -/
structure MinWidthState where
  storedMinWidth : String
  hasGrid : Bool
  displayDensity : DisplayDensity
deriving DecidableEq, Repr

/-- The ECMAScript whitespace trimmed by `parseFloat`/`parseInt` before the
number (the StrWhiteSpace set): WhiteSpace — TAB, VT, FF, SP, NBSP, ZWNBSP
and the Unicode space separators (U+1680, U+2000..U+200A, U+202F, U+205F,
U+3000) — together with the LineTerminators LF, CR, LS and PS. -/
def jsWhitespace (c : Char) : Bool :=
  c.toNat = 0x09 || c.toNat = 0x0A || c.toNat = 0x0B || c.toNat = 0x0C ||
  c.toNat = 0x0D || c.toNat = 0x20 || c.toNat = 0xA0 || c.toNat = 0x1680 ||
  (0x2000 ≤ c.toNat && c.toNat ≤ 0x200A) || c.toNat = 0x202F || c.toNat = 0x205F ||
  c.toNat = 0x3000 || c.toNat = 0x2028 || c.toNat = 0x2029 || c.toNat = 0xFEFF

/-- Whether `parseFloat(s)` yields a number (i.e. not `NaN`): after optional
whitespace and an optional sign the input must begin with a digit, a decimal
point followed by a digit, or the literal `Infinity`. -/
def parseFloatSucceeds (s : String) : Bool :=
  let cs := s.toList.dropWhile jsWhitespace
  let cs2 :=
    match cs with
    | c :: rest => if c = '+' || c = '-' then rest else cs
    | [] => []
  match cs2 with
  | [] => false
  | c :: rest =>
    c.isDigit ||
    (c = '.' && (match rest with | d :: _ => d.isDigit | [] => false)) ||
    (cs2.take 8 = "Infinity".toList)

/-- `get defaultMinWidth()`: `80` without a grid, else by display density. -/
def defaultMinWidth (st : MinWidthState) : String :=
  if !st.hasGrid then "80"
  else
    match st.displayDensity with
    | DisplayDensity.cosy => "64"
    | DisplayDensity.compact => "56"
    | DisplayDensity.comfortable => "80"

/-- `get minWidth()`: `!this._defaultMinWidth ? this.defaultMinWidth :
this._defaultMinWidth` (the only falsy string is the empty one). -/
def minWidthGet (st : MinWidthState) : String :=
  if st.storedMinWidth = "" then defaultMinWidth st else st.storedMinWidth

/-- `set minWidth(value)`: `const minVal = parseFloat(value); if
(Number.isNaN(minVal)) { return; } this._defaultMinWidth = value;` -/
def minWidthSet (st : MinWidthState) (value : String) : MinWidthState :=
  if parseFloatSucceeds value then { st with storedMinWidth := value } else st

/-! ### The `width` setter/getter -/

/-- A JS value as it can arrive through the `width` input binding: a string
by the declared type, or a number from a template binding. -/
inductive JSVal
  | num (q : ℚ)
  | str (s : String)
  | nullv
  | undef
deriving DecidableEq, Repr

def jsTruthy : JSVal → Bool
  | JSVal.num q => q != 0
  | JSVal.str s => decide (s ≠ "")
  | JSVal.nullv => false
  | JSVal.undef => false

/-- String conversion as in `value + 'px'` for a number value. -/
def jsValToStr : JSVal → String
  | JSVal.num q => qToStr q
  | JSVal.str s => s
  | JSVal.nullv => "null"
  | JSVal.undef => "undefined"

/-- `value.match(/^[0-9]*$/)` on a string: only decimal digits. -/
def isDigitsOnly (s : String) : Bool := s.toList.all Char.isDigit

/-- The longest decimal-digit prefix, `none` if there is none. -/
def digitsVal (cs : List Char) : Option Nat :=
  let ds := cs.takeWhile Char.isDigit
  if ds.isEmpty then none
  else some (ds.foldl (fun a c => a * 10 + (c.toNat - 48)) 0)

/-- JS `parseInt(s, 10)`: optional whitespace, optional sign, then the
longest digit prefix; `none` models `NaN`. -/
def jsParseInt (s : String) : Option Int :=
  let cs := s.toList.dropWhile jsWhitespace
  match cs with
  | c :: rest =>
    if c = '-' then (digitsVal rest).map (fun n => -(n : Int))
    else if c = '+' then (digitsVal rest).map (fun n => (n : Int))
    else (digitsVal cs).map (fun n => (n : Int))
  | [] => none

/-- Modelled from the spec: the grid measurement members read by
`cacheCalcWidth` (`grid.calcWidth`, `grid.featureColumnsWidth()`,
`grid.getPossibleColumnWidth()`); the grid component is not part of this
repository slice, so they are opaque inputs. -/
structure GridW where
  calcWidth : ℚ
  featureColumnsWidth : ℚ
  possibleColumnWidth : String
deriving DecidableEq, Repr

/-- The state read and written by the `width` accessors: `widthStored` is
`_width` (`none` = still `undefined`), `calcWidthCache` is `_calcWidth`
(`none` = a `NaN` number value), `calcPixelWidth` (`none` = `NaN`), and the
optional owning grid. -/
structure WidthState where
  widthStored : Option String
  widthSetByUser : Bool
  defaultWidth : Option String
  calcWidthCache : Option JSVal
  calcPixelWidth : Option Int
  grid : Option GridW
deriving DecidableEq, Repr

/-- `get width() { return this.widthSetByUser ? this._width :
this.defaultWidth; }` -/
def widthGet (st : WidthState) : Option String :=
  if st.widthSetByUser then st.widthStored else st.defaultWidth

/-- `parseInt` applied to a cached `_calcWidth` value (a number argument is
string-converted first; a rational prints its integer part first, so its
truncation is parsed). -/
def jsParseIntOfCache : Option JSVal → Option Int
  | none => none
  | some (JSVal.num q) => some (q.num / (q.den : Int))
  | some (JSVal.str s) => jsParseInt s
  | some JSVal.nullv => none
  | some JSVal.undef => none

/-- `cacheCalcWidth()` (lines 1858-1871): a percentage width is resolved
against the grid width minus the feature columns, a missing width falls back
to `defaultWidth || grid.getPossibleColumnWidth()`, anything else caches the
width string itself; `calcPixelWidth` is the parsed cache. -/
def cacheCalcWidth (gr : GridW) (st : WidthState) : WidthState :=
  let colWidth := widthGet st
  let isPercentageWidth :=
    match colWidth with
    | some s => decide (s ≠ "") && s.contains (Char.ofNat 37)
    | none => false
  let cw : Option JSVal :=
    if isPercentageWidth then
      (match colWidth with
       | some s => (jsParseInt s).map (fun n => JSVal.num ((n : ℚ) / 100 * (gr.calcWidth - gr.featureColumnsWidth)))
       | none => none)
    else if colWidth = none || colWidth = some "" then
      match st.defaultWidth with
      | some d => if d = "" then some (JSVal.str gr.possibleColumnWidth) else some (JSVal.str d)
      | none => some (JSVal.str gr.possibleColumnWidth)
    else some (JSVal.str (colWidth.getD ""))
  { st with calcWidthCache := cw, calcPixelWidth := jsParseIntOfCache cw }

/-- `set width(value)` (lines 391-407): a falsy value is ignored; otherwise
the calc caches are reset, `widthSetByUser` is set, a number or all-digit
string gets `'px'` appended, the result is stored in `_width`, and with a
grid present `cacheCalcWidth()` runs (`widthChange.emit` has no modelled
effect).  `normalizeWidthValue` is the two normalization lines `if
(typeof(value) === 'number' || value.match(/^[0-9]*$/)) { value = value +
'px'; }`. -/
def normalizeWidthValue : JSVal → JSVal
  | JSVal.num q => JSVal.str (qToStr q ++ "px")
  | JSVal.str s => if isDigitsOnly s then JSVal.str (s ++ "px") else JSVal.str s
  | v => v

def setWidth (st : WidthState) (value : JSVal) : WidthState :=
  if jsTruthy value then
    let st1 := { st with
      calcWidthCache := some JSVal.nullv
      calcPixelWidth := none
      widthSetByUser := true }
    let st2 := { st1 with widthStored := some (jsValToStr (normalizeWidthValue value)) }
    match st2.grid with
    | some gr => cacheCalcWidth gr st2
    | none => st2
  else st

/-! ### Claim theorems: spans, minWidth, width -/

/-- C6: in multi-row layout the spans derive from the start/end indices —
`gridColumnSpan` equals `colEnd - colStart` when both `colStart` and `colEnd`
are set (truthy) and equals `1` otherwise, and `gridRowSpan` likewise equals
`rowEnd - rowStart` when both are set and `1` otherwise. -/
theorem gridSpan_from_start_end (c : Column) :
    (∀ a b : Int, c.colStart = some a → c.colEnd = some b → a ≠ 0 → b ≠ 0 →
      gridColumnSpan c = b - a) ∧
    ((truthyI c.colStart = false ∨ truthyI c.colEnd = false) → gridColumnSpan c = 1) ∧
    (∀ a b : Int, c.rowStart = some a → c.rowEnd = some b → a ≠ 0 → b ≠ 0 →
      gridRowSpan c = b - a) ∧
    ((truthyI c.rowStart = false ∨ truthyI c.rowEnd = false) → gridRowSpan c = 1) := by
  refine ⟨?_, ?_, ?_, ?_⟩
  · intro a b ha hb ha0 hb0
    simp [gridColumnSpan, ha, hb, truthyI, ha0, hb0]
  · intro h
    rcases h with h | h <;> simp [gridColumnSpan, h]
  · intro a b ha hb ha0 hb0
    simp [gridRowSpan, ha, hb, truthyI, ha0, hb0]
  · intro h
    rcases h with h | h <;> simp [gridRowSpan, h]

/-- Witness for C6 at a concrete column with `colStart = 2`, `colEnd = 5` and
unset row bounds. -/
theorem gridSpan_from_start_end_witness :
    gridColumnSpan ⟨some 2, some 5, none, none, false, none, none, false, false, none⟩ = 5 - 2 ∧
    gridRowSpan ⟨some 2, some 5, none, none, false, none, none, false, false, none⟩ = 1 :=
  ⟨(gridSpan_from_start_end _).1 2 5 rfl rfl (by decide) (by decide),
   (gridSpan_from_start_end _).2.2.2 (Or.inl (by decide))⟩

/-- C5: an invalid `minWidth` value (its parse is `NaN`) is rejected by the
guard, leaving the stored minimum width — and hence the getter — unchanged; a
value that parses to a number is stored and the getter returns exactly it. -/
theorem minWidth_invalid_rejected (st : MinWidthState) (v : String) :
    (parseFloatSucceeds v = false → minWidthGet (minWidthSet st v) = minWidthGet st) ∧
    (parseFloatSucceeds v = true → minWidthGet (minWidthSet st v) = v) := by
  constructor
  · intro h
    simp [minWidthSet, h]
  · intro h
    have hne : v ≠ "" := by
      intro hv
      rw [hv] at h
      exact absurd h (by decide)
    simp [minWidthSet, h, minWidthGet, hne]

/-- Witness for C5: `"abc"` parses to `NaN` and is rejected, while `"5"` and
the NBSP-prefixed `"\u00A05"` parse to a number and are stored verbatim. -/
theorem minWidth_invalid_rejected_witness :
    minWidthGet (minWidthSet ⟨"", false, DisplayDensity.comfortable⟩ "abc") =
      minWidthGet ⟨"", false, DisplayDensity.comfortable⟩ ∧
    minWidthGet (minWidthSet ⟨"", false, DisplayDensity.comfortable⟩ "5") = "5" ∧
    minWidthGet (minWidthSet ⟨"", false, DisplayDensity.comfortable⟩ "\u00A05") = "\u00A05" :=
  ⟨(minWidth_invalid_rejected _ "abc").1 (by decide),
   (minWidth_invalid_rejected _ "5").2 (by decide),
   (minWidth_invalid_rejected _ "\u00A05").2 (by decide)⟩

/-- The stored width predicted by the claim for a truthy assigned value: the
value with `'px'` appended when it is a number or a string of only digits,
the value itself otherwise. -/
def claimedStoredWidth : JSVal → String
  | JSVal.num q => qToStr q ++ "px"
  | JSVal.str s => if isDigitsOnly s then s ++ "px" else s
  | v => jsValToStr v

theorem cacheCalcWidth_frame (gr : GridW) (s : WidthState) :
    (cacheCalcWidth gr s).widthStored = s.widthStored ∧
    (cacheCalcWidth gr s).widthSetByUser = s.widthSetByUser :=
  ⟨rfl, rfl⟩

/-- C9: the `width` setter normalizes and records user intent — a truthy
value is stored (with `'px'` appended for numbers and digit-only strings),
`widthSetByUser` becomes true and the getter returns the stored value; a
falsy value changes nothing. -/
theorem width_setter_normalizes (st : WidthState) (v : JSVal) :
    (jsTruthy v = true →
      (setWidth st v).widthStored = some (claimedStoredWidth v) ∧
      (setWidth st v).widthSetByUser = true ∧
      widthGet (setWidth st v) = some (claimedStoredWidth v)) ∧
    (jsTruthy v = false → setWidth st v = st) := by
  have hclaim : jsTruthy v = true → jsValToStr (normalizeWidthValue v) = claimedStoredWidth v := by
    intro h
    cases v with
    | num q => rfl
    | str s =>
      by_cases hd : isDigitsOnly s <;> simp [claimedStoredWidth, normalizeWidthValue, jsValToStr, hd]
    | nullv => simp [jsTruthy] at h
    | undef => simp [jsTruthy] at h
  constructor
  · intro h
    have hmain : (setWidth st v).widthStored = some (claimedStoredWidth v) ∧
        (setWidth st v).widthSetByUser = true := by
      unfold setWidth
      rw [if_pos h]
      simp only
      cases hg : st.grid with
      | none =>
        simp only [hg]
        exact ⟨by rw [hclaim h], by trivial⟩
      | some gr =>
        simp only [hg]
        refine ⟨(cacheCalcWidth_frame gr _).1.trans ?_, (cacheCalcWidth_frame gr _).2⟩
        rw [hclaim h]
    refine ⟨hmain.1, hmain.2, ?_⟩
    rw [widthGet, if_pos hmain.2, hmain.1]
  · intro h
    unfold setWidth
    rw [if_neg (by simp [h])]

/-- Witness for C9: assigning the digit string `"120"` stores `"120px"`,
assigning the empty string changes nothing. -/
theorem width_setter_normalizes_witness :
    widthGet (setWidth ⟨none, false, none, some JSVal.nullv, none, none⟩ (JSVal.str "120")) =
      some (claimedStoredWidth (JSVal.str "120")) ∧
    setWidth ⟨none, false, none, some JSVal.nullv, none, none⟩ (JSVal.str "") =
      ⟨none, false, none, some JSVal.nullv, none, none⟩ :=
  ⟨((width_setter_normalizes _ (JSVal.str "120")).1 (by decide)).2.2,
   (width_setter_normalizes _ (JSVal.str "")).2 (by decide)⟩

/-! ### Claim theorems: the sizing algorithm -/

theorem phase1_snd (g : Bool) : ∀ (xs : List Column) (st : SizeArr) (idx : Nat),
    (phase1 g st idx xs).2 = xs := by
  intro xs
  induction xs with
  | nil => intro st idx; rfl
  | cons c rest ih =>
    intro st idx
    simp [phase1, ih]

/-- C2: `getInitialChildColumnSizes` is side-effect free on its inputs — the
receiver and every child column come back from the threaded computation
exactly as they went in (the loop bodies read but never assign any of their
fields); the function only builds and returns a new array. -/
theorem getInitialChildColumnSizes_frame (r : Receiver) (children : List Column) :
    (getInitialChildColumnSizesFrame r children).2.1 = r ∧
    (getInitialChildColumnSizesFrame r children).2.2 = children :=
  ⟨rfl, phase1_snd _ children _ _⟩

/-- The fields of a child column that `getInitialChildColumnSizes` reads
(together with the receiver flag passed separately): `colStart`, `colEnd`,
`rowStart`, `rowEnd`, `widthSetByUser` and the parsed `calcWidth`. -/
def colKey (c : Column) :
    Option Int × Option Int × Option Int × Option Int × Bool × Option Int :=
  (c.colStart, c.colEnd, c.rowStart, c.rowEnd, c.widthSetByUser, c.calcWidthInt)

theorem step_congr (g : Bool) (st : SizeArr) (idx : Nat) {c c2 : Column}
    (h : colKey c = colKey c2) : step g st idx c = step g st idx c2 := by
  obtain ⟨a1, a2, a3, a4, a5, a6, a7, a8, a9, a10⟩ := c
  obtain ⟨b1, b2, b3, b4, b5, b6, b7, b8, b9, b10⟩ := c2
  simp only [colKey, Prod.mk.injEq] at h
  obtain ⟨h1, h2, h3, h4, h5, h6⟩ := h
  subst h1 h2 h3 h4 h5 h6
  rfl

theorem phase1_fst_congr (g : Bool) : ∀ (xs ys : List Column) (st : SizeArr) (idx : Nat),
    xs.map colKey = ys.map colKey → (phase1 g st idx xs).1 = (phase1 g st idx ys).1 := by
  intro xs
  induction xs with
  | nil =>
    intro ys st idx h
    cases ys with
    | nil => rfl
    | cons y ys => simp at h
  | cons c rest ih =>
    intro ys st idx h
    cases ys with
    | nil => simp at h
    | cons y ys =>
      simp only [List.map_cons, List.cons.injEq] at h
      obtain ⟨hk, ht⟩ := h
      simp only [phase1]
      rw [step_congr g st idx hk]
      exact ih ys (step g st idx y) (idx + 1) ht

/-- C1: the multi-row-layout column-size reconciliation is deterministic —
two calls of `getInitialChildColumnSizes` on child lists whose columns agree
on `colStart`, `colEnd`, `rowStart`, `rowEnd`, `widthSetByUser` and the
parsed `calcWidth` (and on the receiver's `columnWidthSetByUser` flag, the
only other input) produce equal result arrays: same entries with the same
`ref` positions, `width`, `colSpan`, `colEnd` and `widthSetByUser` values. -/
theorem getInitialChildColumnSizes_deterministic (g : Bool) (xs ys : List Column)
    (h : xs.map colKey = ys.map colKey) :
    getInitialChildColumnSizes g xs = getInitialChildColumnSizes g ys := by
  unfold getInitialChildColumnSizes getInitialChildColumnSizesFrame
  simp only
  rw [phase1_fst_congr g xs ys SizeArr.empty 0 h]

/-- Witness for C1: two one-column lists agreeing on the read fields but
differing in `width`, `hidden`, `pinned` and `parent` give equal results. -/
theorem getInitialChildColumnSizes_deterministic_witness :
    ([⟨some 1, some 3, none, none, true, some 100, none, false, false, none⟩] : List Column).map colKey =
      ([⟨some 1, some 3, none, none, true, some 100, some "77px", true, true, some 4⟩] : List Column).map colKey ∧
    getInitialChildColumnSizes false [⟨some 1, some 3, none, none, true, some 100, none, false, false, none⟩] =
      getInitialChildColumnSizes false [⟨some 1, some 3, none, none, true, some 100, some "77px", true, true, some 4⟩] := by
  constructor
  · rfl
  · exact getInitialChildColumnSizes_deterministic false _ _ (by rfl)

theorem lget_map {α β : Type} (f : α → β) : ∀ (l : List α) (k : Nat),
    lget (l.map f) k = (lget l k).map f := by
  intro l
  induction l with
  | nil => intro k; rfl
  | cons x xs ih =>
    intro k
    cases k with
    | zero => rfl
    | succ k => simpa using ih k

/-- C7: the sizing output is fully filled — `getFilledChildColumnSizes`
returns one string per entry of the reconciled size array, every returned
string ends in `'px'`, and a position whose reconciled width is absent (a
hole, `null`/`NaN` or `0`) is filled with the grid's possible column width in
pixels. -/
theorem getFilledChildColumnSizes_filled (g : Bool) (possible : Option Int)
    (children : List Column) :
    (getFilledChildColumnSizes g possible children).length =
      (getInitialChildColumnSizes g children).length ∧
    (∀ s ∈ getFilledChildColumnSizes g possible children, ∃ t, s = t ++ "px") ∧
    (∀ (k : Nat) (o : Option MRLEntry),
      lget (getInitialChildColumnSizes g children) k = some o →
      (o.map (fun e => wTruthy e.width)).getD false = false →
      lget (getFilledChildColumnSizes g possible children) k =
        some (intOptToStr possible ++ "px")) := by
  refine ⟨by simp [getFilledChildColumnSizes], ?_, ?_⟩
  · intro s hs
    simp only [getFilledChildColumnSizes, List.mem_map] at hs
    obtain ⟨o, _, ho⟩ := hs
    cases o with
    | none => exact ⟨intOptToStr possible, ho.symm⟩
    | some e =>
      by_cases hw : wTruthy e.width
      · rw [← ho]
        simp only [hw]
        exact ⟨qToStr (e.width.getD 0), by simp⟩
      · rw [← ho]
        simp only [hw]
        exact ⟨intOptToStr possible, by simp⟩
  · intro k o hk habs
    rw [getFilledChildColumnSizes, lget_map, hk]
    cases o with
    | none => rfl
    | some e =>
      simp at habs
      simp [habs]

/-- Witness for C7 at a concrete child list: a column starting at 2 leaves a
hole at position 0, which is filled from the possible width. -/
theorem getFilledChildColumnSizes_filled_witness :
    lget (getInitialChildColumnSizes false
      [⟨some 2, none, none, none, false, none, none, false, false, none⟩]) 0 = some none ∧
    lget (getFilledChildColumnSizes false (some 30)
      [⟨some 2, none, none, none, false, none, none, false, false, none⟩]) 0 =
      some (intOptToStr (some 30) ++ "px") := by
  have h0 : lget (getInitialChildColumnSizes false
      [⟨some 2, none, none, none, false, none, none, false, false, none⟩]) 0 = some none := by
    simp [getInitialChildColumnSizes, getInitialChildColumnSizesFrame, phase1, step, truthyI,
      gridColumnSpan, mkEntry, readI, readN, writeI, writeN, alloc, padSlots, lset, lget,
      flattenFrom, flattenInner, resolve, SizeArr.empty, getObjN, getObjI, mutateObj, flatEntry,
      flattenStop, wTruthy, lookupProp]
  exact ⟨h0,
    (getFilledChildColumnSizes_filled false (some 30) _).2.2 0 none h0 (by rfl)⟩

/-! ### Claim theorems: pinning -/

theorem lset_lset {α : Type} : ∀ (l : List α) (k : Nat) (a b : α),
    lset (lset l k a) k b = lset l k b := by
  intro l
  induction l with
  | nil => intro k a b; rfl
  | cons x xs ih =>
    intro k a b
    cases k with
    | zero => rfl
    | succ k => simp [lset, ih]

theorem jsIndexOf_nonneg_or {α : Type} [DecidableEq α] :
    ∀ (l : List α) (x : α), jsIndexOf l x = -1 ∨ 0 ≤ jsIndexOf l x := by
  intro l x
  induction l with
  | nil => exact Or.inl rfl
  | cons y ys ih =>
    simp only [jsIndexOf]
    by_cases hyx : y = x
    · simp [hyx]
    · rw [if_neg hyx]
      by_cases hr : jsIndexOf ys x = -1
      · simp [hr]
      · rw [if_neg hr]
        rcases ih with h | h
        · exact absurd h hr
        · exact Or.inr (by omega)

theorem jsIndexOf_neg_iff {α : Type} [DecidableEq α] :
    ∀ (l : List α) (x : α), jsIndexOf l x = -1 ↔ x ∉ l := by
  intro l x
  induction l with
  | nil => simp [jsIndexOf]
  | cons y ys ih =>
    simp only [jsIndexOf]
    by_cases hyx : y = x
    · simp [hyx]
    · rw [if_neg hyx]
      by_cases hr : jsIndexOf ys x = -1
      · rw [if_pos hr]
        simp only [List.mem_cons, not_or]
        constructor
        · intro _
          exact ⟨fun h => hyx h.symm, ih.mp hr⟩
        · intro _
          trivial
      · rw [if_neg hr]
        constructor
        · intro h
          rcases jsIndexOf_nonneg_or ys x with h2 | h2
          · exact absurd h2 hr
          · omega
        · intro h
          simp only [List.mem_cons, not_or] at h
          exact absurd (ih.mpr h.2) hr

theorem jsSpliceInsert_at_length {α : Type} (l : List α) (x : α) :
    jsSpliceInsert l (l.length : Int) x = l ++ [x] := by
  unfold jsSpliceInsert
  rw [if_neg (by omega)]
  have h2 : ((l.length : Int)).toNat = l.length := by omega
  rw [h2]
  simp

theorem jsSpliceRemove1_zero {α : Type} (y : α) (ys : List α) :
    jsSpliceRemove1 (y :: ys) 0 = ys := by
  unfold jsSpliceRemove1
  simp

theorem jsSpliceRemove1_cons_succ {α : Type} (y : α) (ys : List α) (r : Int) (hr : 0 ≤ r) :
    jsSpliceRemove1 (y :: ys) (r + 1) = y :: jsSpliceRemove1 ys r := by
  unfold jsSpliceRemove1
  rw [if_neg (by omega), if_neg (by omega)]
  have h1 : (r + 1).toNat = r.toNat + 1 := by omega
  rw [h1]
  have h2 : min (r.toNat + 1) (y :: ys).length = min r.toNat ys.length + 1 := by
    simp only [List.length_cons]
    omega
  rw [h2]
  simp

theorem not_mem_remove_at_indexOf {α : Type} [DecidableEq α] :
    ∀ (l : List α), l.Nodup → ∀ x, x ∈ l → x ∉ jsSpliceRemove1 l (jsIndexOf l x) := by
  intro l
  induction l with
  | nil =>
    intro _ x hx
    simp at hx
  | cons y ys ih =>
    intro hnd x hx
    by_cases hyx : y = x
    · subst hyx
      rw [show jsIndexOf (y :: ys) y = 0 by simp [jsIndexOf]]
      rw [jsSpliceRemove1_zero]
      exact (List.nodup_cons.mp hnd).1
    · have hxys : x ∈ ys := by
        rcases List.mem_cons.mp hx with h | h
        · exact absurd h.symm hyx
        · exact h
      have hr : jsIndexOf ys x ≠ -1 := by
        rw [Ne, jsIndexOf_neg_iff]
        simpa using hxys
      have hr0 : 0 ≤ jsIndexOf ys x := by
        rcases jsIndexOf_nonneg_or ys x with h | h
        · exact absurd h hr
        · exact h
      rw [show jsIndexOf (y :: ys) x = jsIndexOf ys x + 1 by simp [jsIndexOf, hyx, hr]]
      rw [jsSpliceRemove1_cons_succ _ _ _ hr0]
      intro hmem
      rcases List.mem_cons.mp hmem with h | h
      · exact hyx h.symm
      · exact ih (List.nodup_cons.mp hnd).2 x hxys h

theorem colAt_mk_lset {cols : List PCol} {id : Nat} (hid : id < cols.length)
    (c : PCol) (g : PGrid) : colAt ⟨lset cols id c, g⟩ id = c := by
  unfold colAt
  simp only
  rw [lget_lset_self _ _ _ hid]
  rfl

/-- The full effect of `pin()` without an index on a top-level unpinned
column that is not yet in `_pinnedColumns` and occurs in `_unpinnedColumns`:
`_pinned` and `_unpinnedIndex` are written, the column is appended to
`_pinnedColumns` and its first occurrence is removed from
`_unpinnedColumns`. -/
theorem pin_none_eq (st : PState) (id : Nat) (fuel : Nat)
    (hid : id < st.cols.length)
    (hp : (colAt st id).pinned = false)
    (hpar : (colAt st id).parent = none)
    (hnotin : jsIndexOf st.grid.pinnedCols id = -1)
    (hinun : jsIndexOf st.grid.unpinnedCols id ≠ -1) :
    pin fuel st id none = (true, PState.mk
      (lset st.cols id (PCol.mk true (some (jsIndexOf st.grid.unpinnedCols id)) none))
      (PGrid.mk st.grid.initFlag (st.grid.pinnedCols ++ [id])
        (jsSpliceRemove1 st.grid.unpinnedCols (jsIndexOf st.grid.unpinnedCols id))
        st.grid.columns)) := by
  rw [pin.eq_def]
  simp only [hp, hpar, Bool.false_eq_true, if_false]
  unfold pinBody
  simp only [Option.isSome_none, Bool.false_and, Bool.false_eq_true, if_false, hpar,
    Option.isNone_none, pinnable, hp, Bool.not_false, Bool.or_true, Bool.not_true,
    Bool.true_and, Bool.and_false, Option.getD_none]
  unfold updateCol
  simp only [colAt_mk_lset hid]
  rw [lset_lset]
  simp [hnotin, hinun, jsSpliceInsert_at_length, hpar]

/-- C3: pinning moves the column into the grid's fixed region — on a
well-formed grid, `pin()` without an index on a top-level unpinned pinnable
column returns `true`, and afterwards the `pinned` getter returns `true`, the
column is a member of the grid's pinned-columns collection and no longer a
member of the unpinned-columns collection. -/
theorem pin_moves_column_into_pinned_region (st : PState) (id : Nat) (fuel : Nat)
    (hcons : Consistent st) (hid : id < st.cols.length)
    (hp : (colAt st id).pinned = false) (hpar : (colAt st id).parent = none)
    (hpinnable : pinnable st id = true) :
    (pin fuel st id none).1 = true ∧
    (colAt (pin fuel st id none).2 id).pinned = true ∧
    id ∈ (pin fuel st id none).2.grid.pinnedCols ∧
    id ∉ (pin fuel st id none).2.grid.unpinnedCols := by
  have hnotin : jsIndexOf st.grid.pinnedCols id = -1 := by
    rw [jsIndexOf_neg_iff, hcons.2.1]
    simp [List.mem_filter, hp]
  have hinun : id ∈ st.grid.unpinnedCols := by
    rw [hcons.2.2]
    simp only [List.mem_filter, List.mem_range, hp]
    exact ⟨hid, rfl⟩
  have hin : jsIndexOf st.grid.unpinnedCols id ≠ -1 := by
    rw [Ne, jsIndexOf_neg_iff]
    simpa using hinun
  rw [pin_none_eq st id fuel hid hp hpar hnotin hin]
  refine ⟨rfl, ?_, ?_, ?_⟩
  · show (colAt ⟨lset st.cols id _, _⟩ id).pinned = true
    rw [colAt_mk_lset hid]
  · simp
  · have hnodup : st.grid.unpinnedCols.Nodup := by
      rw [hcons.2.2]
      exact (List.nodup_range _).filter _
    exact not_mem_remove_at_indexOf _ hnodup id hinun

/-- Witness for C3 on a one-column grid. -/
theorem pin_moves_column_into_pinned_region_witness :
    (pin 0 ⟨[⟨false, none, none⟩], ⟨false, [], [0], [0]⟩⟩ 0 none).1 = true ∧
    (colAt (pin 0 ⟨[⟨false, none, none⟩], ⟨false, [], [0], [0]⟩⟩ 0 none).2 0).pinned = true ∧
    0 ∈ (pin 0 ⟨[⟨false, none, none⟩], ⟨false, [], [0], [0]⟩⟩ 0 none).2.grid.pinnedCols ∧
    0 ∉ (pin 0 ⟨[⟨false, none, none⟩], ⟨false, [], [0], [0]⟩⟩ 0 none).2.grid.unpinnedCols :=
  pin_moves_column_into_pinned_region ⟨[⟨false, none, none⟩], ⟨false, [], [0], [0]⟩⟩ 0 0
    (by decide) (by decide) (by decide) (by decide) (by decide)

/-- C8: `pin(index)` with an out-of-range index fails without pinning — for a
top-level unpinned column and an index that is negative or at least the
number of pinned columns, `pin(index)` returns `false`, the `pinned` getter
still returns `false`, and the pinned- and unpinned-columns collections are
untouched (the whole state is returned unchanged). -/
theorem pin_out_of_range_index_fails (st : PState) (id : Nat) (fuel : Nat) (i : Int)
    (hp : (colAt st id).pinned = false) (hpar : (colAt st id).parent = none)
    (hrange : i < 0 ∨ (st.grid.pinnedCols.length : Int) ≤ i) :
    (pin fuel st id (some i)).1 = false ∧
    (colAt (pin fuel st id (some i)).2 id).pinned = false ∧
    (pin fuel st id (some i)).2.grid.pinnedCols = st.grid.pinnedCols ∧
    (pin fuel st id (some i)).2.grid.unpinnedCols = st.grid.unpinnedCols := by
  have heq : pin fuel st id (some i) = (false, st) := by
    rw [pin.eq_def]
    simp only [hp, hpar, Bool.false_eq_true, if_false]
    unfold pinBody
    have hguard : ((some i).isSome && (decide ((some i).getD 0 < 0) ||
        decide ((st.grid.pinnedCols.length : Int) ≤ (some i).getD 0))) = true := by
      rcases hrange with h | h <;> simp [h]
    rw [if_pos hguard]
  rw [heq]
  exact ⟨rfl, hp, rfl, rfl⟩

/-- Witness for C8 with index `5` on a grid with no pinned column. -/
theorem pin_out_of_range_index_fails_witness :
    (pin 0 ⟨[⟨false, none, none⟩], ⟨false, [], [0], [0]⟩⟩ 0 (some 5)).1 = false ∧
    (colAt (pin 0 ⟨[⟨false, none, none⟩], ⟨false, [], [0], [0]⟩⟩ 0 (some 5)).2 0).pinned = false ∧
    (pin 0 ⟨[⟨false, none, none⟩], ⟨false, [], [0], [0]⟩⟩ 0 (some 5)).2.grid.pinnedCols = [] ∧
    (pin 0 ⟨[⟨false, none, none⟩], ⟨false, [], [0], [0]⟩⟩ 0 (some 5)).2.grid.unpinnedCols = [0] :=
  pin_out_of_range_index_fails ⟨[⟨false, none, none⟩], ⟨false, [], [0], [0]⟩⟩ 0 0 5
    (by decide) (by decide) (by decide)

/-- The effect of `unpin()` without an index on a pinned top-level column:
it reports success, only the column's `_pinned` flag changes among the
columns, `grid.columns` is untouched, and after the final `reinitPinStates`
the unpinned collection is recomputed from the updated pinned flags. -/
theorem unpinBody_none_spec (st : PState) (id : Nat) :
    (unpinBody st id none).1 = true ∧
    (unpinBody st id none).2.cols =
      lset st.cols id (PCol.mk false (colAt st id).unpinnedIndex (colAt st id).parent) ∧
    (unpinBody st id none).2.grid.columns = st.grid.columns ∧
    (unpinBody st id none).2.grid.unpinnedCols =
      st.grid.columns.filter
        (fun i => !((lget (lset st.cols id
          (PCol.mk false (colAt st id).unpinnedIndex (colAt st id).parent)) i).getD defaultPCol).pinned) := by
  unfold unpinBody
  simp only [Option.isSome_none, Bool.false_and, Bool.false_eq_true, if_false]
  unfold reinitPinStates updateCol colAt
  simp only
  split
  · exact ⟨trivial, rfl, rfl, rfl⟩
  · exact ⟨trivial, rfl, rfl, rfl⟩

/-- C4: pinning and unpinning round-trip — on a well-formed grid, `pin()`
then `unpin()` (both without an index) on a top-level unpinned pinnable
column return `true` both times, and afterwards the column's `pinned` getter
returns `false` and the column is again a member of the grid's
unpinned-columns collection. -/
theorem pin_unpin_roundtrip (st : PState) (id fuel fuel2 : Nat)
    (hcons : Consistent st) (hid : id < st.cols.length)
    (hp : (colAt st id).pinned = false) (hpar : (colAt st id).parent = none)
    (hpinnable : pinnable st id = true) :
    (pin fuel st id none).1 = true ∧
    (unpin fuel2 (pin fuel st id none).2 id none).1 = true ∧
    (colAt (unpin fuel2 (pin fuel st id none).2 id none).2 id).pinned = false ∧
    id ∈ (unpin fuel2 (pin fuel st id none).2 id none).2.grid.unpinnedCols := by
  have hnotin : jsIndexOf st.grid.pinnedCols id = -1 := by
    rw [jsIndexOf_neg_iff, hcons.2.1]
    simp [List.mem_filter, hp]
  have hin : jsIndexOf st.grid.unpinnedCols id ≠ -1 := by
    rw [Ne, jsIndexOf_neg_iff]
    simp only [not_not]
    rw [hcons.2.2]
    simp only [List.mem_filter, List.mem_range, hp]
    exact ⟨hid, rfl⟩
  rw [pin_none_eq st id fuel hid hp hpar hnotin hin]
  refine ⟨rfl, ?_⟩
  have hlen1 : id < (lset st.cols id
      (PCol.mk true (some (jsIndexOf st.grid.unpinnedCols id)) none)).length := by
    rw [length_lset]
    exact hid
  rw [unpin.eq_def]
  simp only
  rw [colAt_mk_lset hid]
  simp only [Bool.not_true, Bool.false_eq_true, if_false]
  have hspec := unpinBody_none_spec (PState.mk
    (lset st.cols id (PCol.mk true (some (jsIndexOf st.grid.unpinnedCols id)) none))
    (PGrid.mk st.grid.initFlag (st.grid.pinnedCols ++ [id])
      (jsSpliceRemove1 st.grid.unpinnedCols (jsIndexOf st.grid.unpinnedCols id))
      st.grid.columns)) id
  refine ⟨hspec.1, ?_, ?_⟩
  · unfold colAt
    rw [hspec.2.1]
    simp [lget_lset_self, length_lset, hid]
  · rw [hspec.2.2.2]
    rw [show (PState.mk
      (lset st.cols id (PCol.mk true (some (jsIndexOf st.grid.unpinnedCols id)) none))
      (PGrid.mk st.grid.initFlag (st.grid.pinnedCols ++ [id])
        (jsSpliceRemove1 st.grid.unpinnedCols (jsIndexOf st.grid.unpinnedCols id))
        st.grid.columns)).grid.columns = st.grid.columns from rfl]
    rw [hcons.1]
    rw [List.mem_filter]
    refine ⟨List.mem_range.mpr hid, ?_⟩
    simp [lget_lset_self, length_lset, hid]

/-- Witness for C4 on a one-column grid. -/
theorem pin_unpin_roundtrip_witness :
    (pin 0 ⟨[⟨false, none, none⟩], ⟨false, [], [0], [0]⟩⟩ 0 none).1 = true ∧
    (unpin 0 (pin 0 ⟨[⟨false, none, none⟩], ⟨false, [], [0], [0]⟩⟩ 0 none).2 0 none).1 = true ∧
    (colAt (unpin 0 (pin 0 ⟨[⟨false, none, none⟩], ⟨false, [], [0], [0]⟩⟩ 0 none).2 0 none).2 0).pinned = false ∧
    0 ∈ (unpin 0 (pin 0 ⟨[⟨false, none, none⟩], ⟨false, [], [0], [0]⟩⟩ 0 none).2 0 none).2.grid.unpinnedCols :=
  pin_unpin_roundtrip ⟨[⟨false, none, none⟩], ⟨false, [], [0], [0]⟩⟩ 0 0 0
    (by decide) (by decide) (by decide) (by decide) (by decide)

/-! ### Claim theorems: the flatten invariant of the reconciled sizes -/

/-- Every object the reconciliation ever stores is either the literal built
by the `forEach` pass for the child column at position `ref` (whose
`colStart` was truthy), or its flattened copy, the latter only for a column
spanning more than one grid column. -/
def EntryShape (g : Bool) (cols : List Column) (e : MRLEntry) : Prop :=
  ∃ c, lget cols e.ref = some c ∧ truthyI c.colStart = true ∧
    (e = mkEntry g e.ref c ∨ (e = flatEntry (mkEntry g e.ref c) ∧ 1 < gridColumnSpan c))

def StoreOK (g : Bool) (cols : List Column) (st : SizeArr) : Prop :=
  ∀ e ∈ st.store, EntryShape g cols e

/-- Every id stored in a slot or a negative-index property refers into the
heap. -/
def IdsOK (st : SizeArr) : Prop :=
  (∀ k id, readN st k = some id → id < st.store.length) ∧
  (∀ i id, lookupProp st.props i = some id → id < st.store.length)

theorem flatEntry_colSpan (base : MRLEntry) : (flatEntry base).colSpan = 1 := rfl

theorem flatEntry_ref (base : MRLEntry) : (flatEntry base).ref = base.ref := rfl

theorem EntryShape_flatEntry {g : Bool} {cols : List Column} {base : MRLEntry}
    (h : EntryShape g cols base) (hspan : 1 < base.colSpan) :
    EntryShape g cols (flatEntry base) := by
  obtain ⟨c, hc, ht, hcase⟩ := h
  rcases hcase with h1 | h1
  · refine ⟨c, ?_, ht, Or.inr ⟨?_, ?_⟩⟩
    · rw [flatEntry_ref, h1]
      exact hc
    · rw [flatEntry_ref]
      rw [h1]
      rw [show (mkEntry g base.ref c).ref = base.ref from by rw [← h1]]
    · have : base.colSpan = gridColumnSpan c := by rw [h1]; rfl
      omega
  · exfalso
    have : base.colSpan = 1 := by rw [h1.1, flatEntry_colSpan]
    omega

theorem readN_writeN_cases (st : SizeArr) (k id k2 id2 : Nat)
    (h : readN (writeN st k id) k2 = some id2) : id2 = id ∨ readN st k2 = some id2 := by
  by_cases hk : k2 = k
  · subst hk
    rw [readN_writeN_self] at h
    exact Or.inl (by injection h with h2; exact h2.symm)
  · rw [readN_writeN_ne _ _ _ _ hk] at h
    exact Or.inr h

theorem writeI_store (st : SizeArr) (i : Int) (id : Nat) : (writeI st i id).store = st.store := by
  unfold writeI
  split <;> rfl

theorem alloc_store_length (st : SizeArr) (e : MRLEntry) :
    (alloc st e).1.store.length = st.store.length + 1 := by
  rw [alloc_store]
  simp

theorem IdsOK_writeN {st : SizeArr} {k id : Nat} (h : IdsOK st) (hid : id < st.store.length) :
    IdsOK (writeN st k id) := by
  constructor
  · intro k2 id2 h2
    rcases readN_writeN_cases st k id k2 id2 h2 with h3 | h3
    · subst h3
      exact hid
    · exact h.1 k2 id2 h3
  · intro i2 id2 h2
    exact h.2 i2 id2 h2

theorem IdsOK_writeI {st : SizeArr} (i : Int) {id : Nat} (h : IdsOK st) (hid : id < st.store.length) :
    IdsOK (writeI st i id) := by
  unfold writeI
  split
  · exact IdsOK_writeN h hid
  · constructor
    · intro k2 id2 h2
      exact h.1 k2 id2 h2
    · intro i2 id2 h2
      simp only [lookupProp] at h2
      by_cases hij : i = i2
      · rw [if_pos hij] at h2
        injection h2 with h3
        subst h3
        exact hid
      · rw [if_neg hij] at h2
        exact h.2 i2 id2 h2

theorem IdsOK_alloc {st : SizeArr} (e : MRLEntry) (h : IdsOK st) : IdsOK (alloc st e).1 := by
  constructor
  · intro k id2 h2
    have := h.1 k id2 h2
    rw [alloc_store_length]
    omega
  · intro i id2 h2
    have := h.2 i id2 h2
    rw [alloc_store_length]
    omega

theorem IdsOK_mutate {st : SizeArr} (id : Nat) (e : MRLEntry) (h : IdsOK st) :
    IdsOK (mutateObj st id e) := by
  constructor
  · intro k id2 h2
    have := h.1 k id2 h2
    unfold mutateObj
    simp only
    rw [length_lset]
    exact this
  · intro i id2 h2
    have := h.2 i id2 h2
    unfold mutateObj
    simp only
    rw [length_lset]
    exact this

theorem StoreOK_writeI {g : Bool} {cols : List Column} {st : SizeArr} (i : Int) (id : Nat)
    (h : StoreOK g cols st) : StoreOK g cols (writeI st i id) := by
  intro e he
  rw [writeI_store] at he
  exact h e he

theorem StoreOK_alloc {g : Bool} {cols : List Column} {st : SizeArr} {e : MRLEntry}
    (h : StoreOK g cols st) (he : EntryShape g cols e) : StoreOK g cols (alloc st e).1 := by
  intro x hx
  rw [alloc_store] at hx
  rcases List.mem_append.mp hx with h2 | h2
  · exact h x h2
  · rw [List.mem_singleton.mp h2]
    exact he

theorem StoreOK_mutate {g : Bool} {cols : List Column} {st : SizeArr} {e : MRLEntry} (id : Nat)
    (h : StoreOK g cols st) (he : EntryShape g cols e) : StoreOK g cols (mutateObj st id e) := by
  intro x hx
  unfold mutateObj at hx
  simp only at hx
  rcases mem_lset st.store id e x hx with h2 | h2
  · rw [h2]
    exact he
  · exact h x h2

theorem readI_lt {st : SizeArr} (h : IdsOK st) (i : Int) (id : Nat)
    (hr : readI st i = some id) : id < st.store.length := by
  unfold readI at hr
  by_cases h0 : 0 ≤ i
  · rw [if_pos h0] at hr
    exact h.1 i.toNat id hr
  · rw [if_neg h0] at hr
    exact h.2 i id hr

theorem copyOldLoop_spec : ∀ (n : Nat) (st : SizeArr) (i b : Int) (oldId : Nat),
    (b - i).toNat ≤ n →
    (copyOldLoop oldId st i b).store = st.store ∧
    (IdsOK st → oldId < st.store.length → IdsOK (copyOldLoop oldId st i b)) := by
  intro n
  induction n with
  | zero =>
    intro st i b oldId hn
    rw [copyOldLoop]
    rw [dif_neg (by omega)]
    exact ⟨rfl, fun h _ => h⟩
  | succ n ih =>
    intro st i b oldId hn
    rw [copyOldLoop]
    by_cases hib : i < b
    · rw [dif_pos hib]
      have hrec : ∀ st2 : SizeArr, st2.store = st.store →
          (IdsOK st → oldId < st.store.length → IdsOK st2) →
          (copyOldLoop oldId st2 (i + 1) b).store = st.store ∧
          (IdsOK st → oldId < st.store.length → IdsOK (copyOldLoop oldId st2 (i + 1) b)) := by
        intro st2 hst2 hids2
        have h2 := ih st2 (i + 1) b oldId (by omega)
        refine ⟨h2.1.trans hst2, fun ha hb2 => h2.2 (hids2 ha hb2) ?_⟩
        rw [hst2]
        exact hb2
      cases hobj : getObjI st i with
      | none =>
        simp only
        exact hrec (writeI st i oldId) (writeI_store st i oldId)
          (fun ha hb2 => IdsOK_writeI i ha hb2)
      | some e =>
        simp only
        by_cases hw : e.widthSetByUser
        · rw [if_pos hw]
          exact ⟨rfl, fun h _ => h⟩
        · rw [if_neg hw]
          exact hrec (writeI st i oldId) (writeI_store st i oldId)
            (fun ha hb2 => IdsOK_writeI i ha hb2)
    · rw [dif_neg hib]
      exact ⟨rfl, fun h _ => h⟩

theorem fillBiggerLoop_spec : ∀ (n : Nat) (st : SizeArr) (i b : Int) (entry : MRLEntry),
    (b - i).toNat ≤ n →
    (∃ tail, (fillBiggerLoop entry st i b).store = st.store ++ tail ∧ ∀ x ∈ tail, x = entry) ∧
    (IdsOK st → IdsOK (fillBiggerLoop entry st i b)) := by
  intro n
  induction n with
  | zero =>
    intro st i b entry hn
    rw [fillBiggerLoop]
    rw [dif_neg (by omega)]
    exact ⟨⟨[], by simp, by simp⟩, fun h => h⟩
  | succ n ih =>
    intro st i b entry hn
    rw [fillBiggerLoop]
    by_cases hib : i < b
    · rw [dif_pos hib]
      have hrec :
          (∃ tail, (fillBiggerLoop entry (writeI (alloc st entry).1 i (alloc st entry).2) (i + 1) b).store = st.store ++ tail ∧ ∀ x ∈ tail, x = entry) ∧
          (IdsOK st → IdsOK (fillBiggerLoop entry (writeI (alloc st entry).1 i (alloc st entry).2) (i + 1) b)) := by
        have h2 := ih (writeI (alloc st entry).1 i (alloc st entry).2) (i + 1) b entry (by omega)
        constructor
        · obtain ⟨tail, htail, hall⟩ := h2.1
          refine ⟨entry :: tail, ?_, ?_⟩
          · rw [htail, writeI_store, alloc_store, List.append_assoc]
            rfl
          · intro x hx
            rcases List.mem_cons.mp hx with h3 | h3
            · exact h3
            · exact hall x h3
        · intro hids
          refine h2.2 (IdsOK_writeI i (IdsOK_alloc entry hids) ?_)
          rw [alloc_store_length]
          rw [show (alloc st entry).2 = st.store.length from rfl]
          omega
      cases hobj : getObjI st i with
      | none =>
        simp only
        exact hrec
      | some e =>
        simp only
        by_cases hw : e.widthSetByUser
        · rw [if_pos hw]
          exact ⟨⟨[], by simp, by simp⟩, fun h => h⟩
        · rw [if_neg hw]
          exact hrec
    · rw [dif_neg hib]
      exact ⟨⟨[], by simp, by simp⟩, fun h => h⟩

theorem flattenInner_ids : ∀ (n : Nat) (st : SizeArr) (i : Nat) (base : MRLEntry) (j : Nat),
    (base.colSpan - (j : Int)).toNat ≤ n →
    IdsOK st → IdsOK (flattenInner st i base j).1 := by
  intro n
  induction n with
  | zero =>
    intro st i base j hn hids
    rw [flattenInner]
    rw [dif_neg (by intro h; have := h.1; omega)]
    exact hids
  | succ n ih =>
    intro st i base j hn hids
    rw [flattenInner]
    by_cases hc : ((j : Int) < base.colSpan ∧ ((i : Int) + j + 1 : Int) < base.colEnd)
    · rw [dif_pos hc]
      by_cases hs : flattenStop st i base j
      · rw [if_pos hs]
        exact hids
      · rw [if_neg hs]
        simp only
        have hc1 := hc.1
        refine ih _ i base (j + 1) (by push_cast; omega) ?_
        refine IdsOK_writeN (IdsOK_alloc _ hids) ?_
        rw [alloc_store_length]
        rw [show (alloc st (flatEntry base)).2 = st.store.length from rfl]
        omega
    · rw [dif_neg hc]
      exact hids

theorem StoreOK_of_store_eq {g : Bool} {cols : List Column} {st st2 : SizeArr}
    (hst : st2.store = st.store) (h : StoreOK g cols st) : StoreOK g cols st2 := by
  intro e he
  rw [hst] at he
  exact h e he

theorem EntryShape_mkEntry {g : Bool} {cols : List Column} {idx : Nat} {c : Column}
    (hc : lget cols idx = some c) (htr : truthyI c.colStart = true) :
    EntryShape g cols (mkEntry g idx c) :=
  ⟨c, hc, htr, Or.inl rfl⟩

theorem step_spec (g : Bool) (cols : List Column) (st : SizeArr) (idx : Nat) (c : Column)
    (hc : lget cols idx = some c) :
    (StoreOK g cols st → StoreOK g cols (step g st idx c)) ∧
    (IdsOK st → IdsOK (step g st idx c)) := by
  unfold step
  by_cases htr : truthyI c.colStart
  · rw [if_pos htr]
    simp only
    cases hrd : readI st (c.colStart.getD 0 - 1) with
    | none =>
      simp only
      constructor
      · intro hok
        exact StoreOK_writeI _ _ (StoreOK_alloc hok (EntryShape_mkEntry hc htr))
      · intro hids
        refine IdsOK_writeI _ (IdsOK_alloc _ hids) ?_
        rw [alloc_store_length]
        rw [show (alloc st (mkEntry g idx c)).2 = st.store.length from rfl]
        omega
    | some oldId =>
      simp only
      cases hold : lget st.store oldId with
      | none =>
        simp only
        exact ⟨fun h => h, fun h => h⟩
      | some old =>
        simp only
        by_cases h1 : ((c.widthSetByUser && !old.widthSetByUser) ||
            (decide (gridColumnSpan c < old.colSpan) &&
              ((c.widthSetByUser && old.widthSetByUser) ||
               (!c.widthSetByUser && !old.widthSetByUser)))) = true
        · rw [if_pos h1]
          by_cases h2 : ((c.widthSetByUser && old.widthSetByUser) &&
              decide (gridColumnSpan c < old.colSpan)) = true
          · rw [if_pos h2]
            have hcopy := copyOldLoop_spec
              (old.colEnd - 1 - (c.colStart.getD 0 - 1 + gridColumnSpan c)).toNat st
              (c.colStart.getD 0 - 1 + gridColumnSpan c) (old.colEnd - 1) oldId (le_refl _)
            constructor
            · intro hok
              refine StoreOK_writeI _ _ (StoreOK_alloc ?_ (EntryShape_mkEntry hc htr))
              exact StoreOK_of_store_eq hcopy.1 hok
            · intro hids
              have hids1 := hcopy.2 hids (readI_lt hids _ _ hrd)
              refine IdsOK_writeI _ (IdsOK_alloc _ hids1) ?_
              rw [alloc_store_length]
              rw [show ∀ s : SizeArr, (alloc s (mkEntry g idx c)).2 = s.store.length from fun _ => rfl]
              omega
          · rw [if_neg h2]
            constructor
            · intro hok
              exact StoreOK_writeI _ _ (StoreOK_alloc hok (EntryShape_mkEntry hc htr))
            · intro hids
              refine IdsOK_writeI _ (IdsOK_alloc _ hids) ?_
              rw [alloc_store_length]
              rw [show (alloc st (mkEntry g idx c)).2 = st.store.length from rfl]
              omega
        · rw [if_neg h1]
          by_cases h3 : ((c.widthSetByUser && old.widthSetByUser) &&
              decide (old.colSpan < gridColumnSpan c)) = true
          · rw [if_pos h3]
            have hfill := fillBiggerLoop_spec
              (c.colStart.getD 0 - 1 + gridColumnSpan c - (c.colStart.getD 0 - 1 + old.colSpan)).toNat
              st (c.colStart.getD 0 - 1 + old.colSpan) (c.colStart.getD 0 - 1 + gridColumnSpan c)
              (mkEntry g idx c) (le_refl _)
            constructor
            · intro hok
              obtain ⟨tail, htail, hall⟩ := hfill.1
              intro e he
              rw [htail] at he
              rcases List.mem_append.mp he with h4 | h4
              · exact hok e h4
              · rw [hall e h4]
                exact EntryShape_mkEntry hc htr
            · intro hids
              exact hfill.2 hids
          · rw [if_neg h3]
            exact ⟨fun h => h, fun h => h⟩
  · rw [if_neg htr]
    exact ⟨fun h => h, fun h => h⟩

theorem phase1_spec (g : Bool) (cols : List Column) : ∀ (xs : List Column) (st : SizeArr) (idx : Nat),
    (∀ k c, lget xs k = some c → lget cols (idx + k) = some c) →
    StoreOK g cols st → IdsOK st →
    StoreOK g cols (phase1 g st idx xs).1 ∧ IdsOK (phase1 g st idx xs).1 := by
  intro xs
  induction xs with
  | nil =>
    intro st idx _ hok hids
    exact ⟨hok, hids⟩
  | cons c rest ih =>
    intro st idx hsub hok hids
    have hc : lget cols idx = some c := by
      have := hsub 0 c rfl
      rwa [Nat.add_zero] at this
    have hstep := step_spec g cols st idx c hc
    simp only [phase1]
    refine ih (step g st idx c) (idx + 1) ?_ (hstep.1 hok) (hstep.2 hids)
    intro k c2 hk
    have := hsub (k + 1) c2 hk
    rwa [show idx + (k + 1) = idx + 1 + k by omega] at this

/-- Master invariant of the flatten loop: it preserves the heap shape and id
validity, and once it has run from a position below which every defined slot
already has `colSpan ≤ 1`, every defined slot of the result has
`colSpan ≤ 1`. -/
theorem flattenFrom_spec (g : Bool) (cols : List Column) : ∀ (n : Nat) (st : SizeArr) (i : Nat),
    st.slots.length - i ≤ n →
    StoreOK g cols st → IdsOK st →
    (∀ k, k < i → ∀ e, getObjN st k = some e → e.colSpan ≤ 1) →
    StoreOK g cols (flattenFrom st i) ∧ IdsOK (flattenFrom st i) ∧
    (∀ k e, getObjN (flattenFrom st i) k = some e → e.colSpan ≤ 1) := by
  intro n
  induction n with
  | zero =>
    intro st i hn hok hids hinv
    rw [flattenFrom]
    rw [dif_neg (by omega)]
    refine ⟨hok, hids, ?_⟩
    intro k e he
    by_cases hk : k < i
    · exact hinv k hk e he
    · exfalso
      unfold getObjN readN at he
      rw [lget_none_of_ge _ _ (by omega)] at he
      simp at he
  | succ n ih =>
    intro st i hn hok hids hinv
    rw [flattenFrom]
    by_cases hi : i < st.slots.length
    · rw [dif_pos hi]
      cases hm : readN st i with
      | none =>
        simp only
        refine ih st (i + 1) (by omega) hok hids ?_
        intro k hk e he
        by_cases hki : k < i
        · exact hinv k hki e he
        · have hkeq : k = i := by omega
          subst hkeq
          exfalso
          unfold getObjN at he
          rw [hm] at he
          simp at he
      | some id =>
        simp only
        cases hobj : lget st.store id with
        | none =>
          simp only
          refine ih st (i + 1) (by omega) hok hids ?_
          intro k hk e he
          by_cases hki : k < i
          · exact hinv k hki e he
          · have hkeq : k = i := by omega
            subst hkeq
            exfalso
            unfold getObjN at he
            rw [hm] at he
            rw [show (some id).bind (fun x => lget st.store x) = lget st.store id from rfl] at he
            rw [hobj] at he
            exact Option.noConfusion he
        | some e =>
          simp only
          by_cases hspan : 1 < e.colSpan
          · rw [if_pos hspan]
            have hmain := flattenInner_main st i e 1
            obtain ⟨h1, ⟨tail, htail, htailall⟩, h3, h4, hp5, h6⟩ := hmain
            have hidlt : id < st.store.length := hids.1 i id hm
            have hshape : EntryShape g cols e := hok e (mem_of_lget _ _ _ hobj)
            have hplen : st.store.length ≤ (flattenInner st i e 1).1.store.length := by
              rw [htail]
              simp
            have hokp : StoreOK g cols (flattenInner st i e 1).1 := by
              intro x hx
              rw [htail] at hx
              rcases List.mem_append.mp hx with hxx | hxx
              · exact hok x hxx
              · rw [htailall x hxx]
                exact EntryShape_flatEntry hshape hspan
            have hok2 : StoreOK g cols (mutateObj (flattenInner st i e 1).1 id (flatEntry e)) :=
              StoreOK_mutate id hokp (EntryShape_flatEntry hshape hspan)
            have hidsp : IdsOK (flattenInner st i e 1).1 :=
              flattenInner_ids (e.colSpan - ((1 : Nat) : Int)).toNat st i e 1 (le_refl _) hids
            have hids2 : IdsOK (mutateObj (flattenInner st i e 1).1 id (flatEntry e)) :=
              IdsOK_mutate id _ hidsp
            have hslots2 : (mutateObj (flattenInner st i e 1).1 id (flatEntry e)).slots =
                (flattenInner st i e 1).1.slots := rfl
            have hstore2 : (mutateObj (flattenInner st i e 1).1 id (flatEntry e)).store =
                lset (flattenInner st i e 1).1.store id (flatEntry e) := rfl
            have hlookid : lget (mutateObj (flattenInner st i e 1).1 id (flatEntry e)).store id =
                some (flatEntry e) := by
              rw [hstore2]
              exact lget_lset_self _ _ _ (by omega)
            have hlook : ∀ id2, id2 < st.store.length → id2 ≠ id →
                lget (mutateObj (flattenInner st i e 1).1 id (flatEntry e)).store id2 =
                  lget st.store id2 := by
              intro id2 hlt hne
              rw [hstore2, lget_lset_ne _ _ _ _ (fun hh => hne hh.symm)]
              rw [htail, lget_append_left _ _ _ hlt]
            have hinv2 : ∀ k, k < i + (flattenInner st i e 1).2 → ∀ e2,
                getObjN (mutateObj (flattenInner st i e 1).1 id (flatEntry e)) k = some e2 →
                e2.colSpan ≤ 1 := by
              intro k hk e2 he2
              unfold getObjN at he2
              rw [show readN (mutateObj (flattenInner st i e 1).1 id (flatEntry e)) k =
                  readN (flattenInner st i e 1).1 k from rfl] at he2
              by_cases hk1 : k < i
              · rw [h3 k (by omega)] at he2
                cases hrk : readN st k with
                | none =>
                  rw [hrk] at he2
                  exact Option.noConfusion he2
                | some id2 =>
                  rw [hrk] at he2
                  rw [show (some id2).bind (fun x =>
                      lget (mutateObj (flattenInner st i e 1).1 id (flatEntry e)).store x) =
                      lget (mutateObj (flattenInner st i e 1).1 id (flatEntry e)).store id2
                      from rfl] at he2
                  by_cases hid2 : id2 = id
                  · subst hid2
                    rw [hlookid] at he2
                    injection he2 with he3
                    rw [← he3, flatEntry_colSpan]
                  · rw [hlook id2 (hids.1 k id2 hrk) hid2] at he2
                    refine hinv k hk1 e2 ?_
                    unfold getObjN
                    rw [hrk]
                    exact he2
              · by_cases hk2 : k = i
                · rw [hk2] at he2
                  rw [h3 i (by omega), hm] at he2
                  rw [show (some id).bind (fun x =>
                      lget (mutateObj (flattenInner st i e 1).1 id (flatEntry e)).store x) =
                      lget (mutateObj (flattenInner st i e 1).1 id (flatEntry e)).store id
                      from rfl] at he2
                  rw [hlookid] at he2
                  injection he2 with he3
                  rw [← he3, flatEntry_colSpan]
                · obtain ⟨nid, hrn, hge, hl⟩ := h4 k (by omega) hk
                  rw [hrn] at he2
                  rw [show (some nid).bind (fun x =>
                      lget (mutateObj (flattenInner st i e 1).1 id (flatEntry e)).store x) =
                      lget (mutateObj (flattenInner st i e 1).1 id (flatEntry e)).store nid
                      from rfl] at he2
                  rw [hstore2, lget_lset_ne _ _ _ _ (by omega)] at he2
                  rw [hl] at he2
                  injection he2 with he3
                  rw [← he3, flatEntry_colSpan]
            refine ih (mutateObj (flattenInner st i e 1).1 id (flatEntry e))
              (i + (flattenInner st i e 1).2) ?_ hok2 hids2 hinv2
            have hlen2 : (mutateObj (flattenInner st i e 1).1 id (flatEntry e)).slots.length =
                (flattenInner st i e 1).1.slots.length := by
              rw [hslots2]
            omega
          · rw [if_neg hspan]
            refine ih st (i + 1) (by omega) hok hids ?_
            intro k hk e2 he2
            by_cases hki : k < i
            · exact hinv k hki e2 he2
            · have hkeq : k = i := by omega
              subst hkeq
              unfold getObjN at he2
              rw [hm] at he2
              rw [show (some id).bind (fun x => lget st.store x) = lget st.store id from rfl] at he2
              rw [hobj] at he2
              injection he2 with he3
              rw [← he3]
              omega
    · rw [dif_neg hi]
      refine ⟨hok, hids, ?_⟩
      intro k e he
      by_cases hk : k < i
      · exact hinv k hk e he
      · exfalso
        unfold getObjN readN at he
        rw [lget_none_of_ge _ _ (by omega)] at he
        simp at he

theorem resolve_lget (st : SizeArr) (k : Nat) (o : Option MRLEntry)
    (h : lget (resolve st) k = some o) : o = getObjN st k := by
  unfold resolve at h
  rw [lget_map] at h
  cases hl : lget st.slots k with
  | none =>
    rw [hl] at h
    exact Option.noConfusion h
  | some sv =>
    rw [hl] at h
    injection h with h2
    unfold getObjN readN
    rw [hl]
    rw [← h2]
    rfl

/-- C10 (amended): every defined entry of the array returned by
`getInitialChildColumnSizes` references a child column and has `colSpan` at
most `1` — exactly `1` whenever that column's `gridColumnSpan` is at least
`1` — and an entry whose referenced column had span greater than `1` and
width set by the user has its width divided by that original span.  The
original claim's unconditional `colSpan = 1` fails for degenerate columns
with `colEnd = colStart`, which keep span `0`. -/
theorem childColumnSizes_flatten_invariant (g : Bool) (cols : List Column) (k : Nat) (e : MRLEntry)
    (h : lget (getInitialChildColumnSizes g cols) k = some (some e)) :
    ∃ c, lget cols e.ref = some c ∧
      e.colSpan ≤ 1 ∧
      (1 ≤ gridColumnSpan c → e.colSpan = 1) ∧
      (e.widthSetByUser = true → 1 < gridColumnSpan c →
        e.width = (mkEntry g e.ref c).width.map (fun q => q / (gridColumnSpan c : ℚ))) := by
  unfold getInitialChildColumnSizes getInitialChildColumnSizesFrame at h
  simp only at h
  have hempty_ok : StoreOK g cols SizeArr.empty := fun x hx => absurd hx (List.not_mem_nil x)
  have hempty_ids : IdsOK SizeArr.empty := by
    constructor
    · intro k2 id h2
      exact Option.noConfusion h2
    · intro i2 id h2
      exact Option.noConfusion h2
  have hstart := phase1_spec g cols cols SizeArr.empty 0
    (fun k2 c2 hk2 => by rwa [Nat.zero_add]) hempty_ok hempty_ids
  have hfinal := flattenFrom_spec g cols (phase1 g SizeArr.empty 0 cols).1.slots.length
    (phase1 g SizeArr.empty 0 cols).1 0 (by omega) hstart.1 hstart.2
    (fun k2 hk2 e2 _ => absurd hk2 (by omega))
  have hgo : getObjN (flattenFrom (phase1 g SizeArr.empty 0 cols).1 0) k = some e :=
    (resolve_lget _ k (some e) h).symm
  have hb : e.colSpan ≤ 1 := hfinal.2.2 k e hgo
  have hmem : e ∈ (flattenFrom (phase1 g SizeArr.empty 0 cols).1 0).store := by
    unfold getObjN at hgo
    cases hr : readN (flattenFrom (phase1 g SizeArr.empty 0 cols).1 0) k with
    | none =>
      rw [hr] at hgo
      exact Option.noConfusion hgo
    | some id =>
      rw [hr] at hgo
      rw [show (some id).bind (fun x =>
          lget (flattenFrom (phase1 g SizeArr.empty 0 cols).1 0).store x) =
          lget (flattenFrom (phase1 g SizeArr.empty 0 cols).1 0).store id from rfl] at hgo
      exact mem_of_lget _ _ _ hgo
  have hshape := hfinal.1 e hmem
  obtain ⟨c, hc, htr, hcase⟩ := hshape
  obtain ⟨eref, ew, ecs, ece, ewb⟩ := e
  refine ⟨c, hc, hb, ?_, ?_⟩
  · intro hge
    rcases hcase with h1 | h1
    · have hcs := congrArg MRLEntry.colSpan h1
      simp only [mkEntry] at hcs
      simp only at hb ⊢
      omega
    · have hcs := congrArg MRLEntry.colSpan h1.1
      simp only [flatEntry] at hcs
      exact hcs
  · intro hw hgt
    rcases hcase with h1 | h1
    · exfalso
      have hcs := congrArg MRLEntry.colSpan h1
      simp only [mkEntry] at hcs
      simp only at hb
      omega
    · have hwidth := congrArg MRLEntry.width h1.1
      have hwb := congrArg MRLEntry.widthSetByUser h1.1
      simp only [flatEntry] at hwidth hwb
      have hcw : (mkEntry g eref c).widthSetByUser = true := by
        rw [← hwb]
        exact hw
      rw [hcw] at hwidth
      simp only [if_true] at hwidth
      simp only at hwidth ⊢
      rw [hwidth]
      rfl

/-- Counterexample to C10 as stated: for a single child column with
`colStart = colEnd = 2` (truthy start and end, span `0`) the reconciled
array keeps a defined entry with `colSpan = 0 ≠ 1`, because the flatten loop
only rewrites entries with `colSpan > 1`. -/
theorem childColumnSizes_colSpan_counterexample :
    getInitialChildColumnSizes false
      [⟨some 2, some 2, none, none, false, some 100, none, false, false, none⟩] =
      [none, some ⟨0, none, 0, 2, false⟩] ∧
    (⟨0, none, 0, 2, false⟩ : MRLEntry).colSpan ≠ 1 := by
  constructor
  · simp [getInitialChildColumnSizes, getInitialChildColumnSizesFrame, phase1, step, truthyI,
      gridColumnSpan, mkEntry, readI, readN, writeI, writeN, alloc, padSlots, lset, lget,
      flattenFrom, flattenInner, resolve, SizeArr.empty, getObjN, getObjI, mutateObj, flatEntry,
      flattenStop, wTruthy, lookupProp]
  · decide

/-- Witness for the amended C10 at a concrete user-sized span-2 column: the
entry at position 0 references column 0, has `colSpan = 1` and its width
`100` divided by the span `2`. -/
theorem childColumnSizes_flatten_invariant_witness :
    lget (getInitialChildColumnSizes false
      [⟨some 1, some 3, none, none, true, some 100, none, false, false, none⟩]) 0 =
      some (some ⟨0, some 50, 1, 3, true⟩) ∧
    ∃ c, lget [(⟨some 1, some 3, none, none, true, some 100, none, false, false, none⟩ : Column)]
        (⟨0, some 50, 1, 3, true⟩ : MRLEntry).ref = some c ∧
      (⟨0, some 50, 1, 3, true⟩ : MRLEntry).colSpan ≤ 1 ∧
      (1 ≤ gridColumnSpan c → (⟨0, some 50, 1, 3, true⟩ : MRLEntry).colSpan = 1) ∧
      ((⟨0, some 50, 1, 3, true⟩ : MRLEntry).widthSetByUser = true → 1 < gridColumnSpan c →
        (⟨0, some 50, 1, 3, true⟩ : MRLEntry).width =
          (mkEntry false (⟨0, some 50, 1, 3, true⟩ : MRLEntry).ref c).width.map
            (fun q => q / (gridColumnSpan c : ℚ))) := by
  have h0 : lget (getInitialChildColumnSizes false
      [⟨some 1, some 3, none, none, true, some 100, none, false, false, none⟩]) 0 =
      some (some ⟨0, some 50, 1, 3, true⟩) := by
    simp [getInitialChildColumnSizes, getInitialChildColumnSizesFrame, phase1, step, truthyI,
      gridColumnSpan, mkEntry, readI, readN, writeI, writeN, alloc, padSlots, lset, lget,
      flattenFrom, flattenInner, resolve, SizeArr.empty, getObjN, getObjI, mutateObj, flatEntry,
      flattenStop, wTruthy, lookupProp]
    norm_num
  exact ⟨h0, childColumnSizes_flatten_invariant false _ 0 _ h0⟩
